import Mathlib

/-!
# Verification of the esy-install resolution-and-lock core

A shallow embedding, in Lean 4, of the lockfile data model
(`src/unnamed/part_000`, the `Lockfile` module), the opam exotic resolver
(`src/src/resolvers/exotics/opam-resolver/index.js`) and the opam fetch
pipeline (`src/src/fetchers/opam-fetcher.js`), together with theorems
checking the repository's specification against the code.

JavaScript objects with optional fields are embedded as structures with
`Option` fields; JavaScript maps (`{[key: string]: v}`) as association lists
`List (String × v)`; string falsiness (`"" || d`) is modelled explicitly.
External collaborators (the `semver` library, `EsyOpam.versionCompare`, the
MD5 hasher, the HTTP registry) are passed in as explicit function parameters,
mirroring the narrow contracts of §6 of the spec.
-/

namespace EsyInstall

/-! ## Character-list helpers (JS `indexOf`, `lastIndexOf`, `slice`) -/

/-- Index of the first occurrence of the character `c` in `l`
(JS `value.indexOf(c)`, with `none` for `-1`). -/
def chIndex (c : Char) : List Char → Option Nat
  | [] => none
  | x :: xs => if x = c then some 0 else (chIndex c xs).map (· + 1)

/-- Index of the last occurrence of the character `c` in `l`
(JS `value.lastIndexOf(c)`, with `none` for `-1`). -/
def chLastIndex (c : Char) (l : List Char) : Option Nat :=
  (chIndex c l.reverse).map (fun i => l.length - 1 - i)

/-- Index of the first occurrence of `pat` as a contiguous sublist of `l`
(JS `value.indexOf(pat)` for a string pattern, with `none` for `-1`). -/
def subIndex (pat : List Char) : List Char → Option Nat
  | [] => if pat = [] then some 0 else none
  | x :: xs => if pat.isPrefixOf (x :: xs) then some 0 else (subIndex pat xs).map (· + 1)

/-! ## Lockfile data model (`src/unnamed/part_000`)

A lock entry is a JavaScript object whose fields may each be absent.  The
full (`LockManifest`) and minimal (`MinimalLockManifest`) Flow types are two
disciplines over the same runtime object, so a single structure with
`Option` fields embeds both. -/

abbrev Dependencies := List (String × String)
abbrev Permissions := List (String × Bool)

structure LockEntry where
  name : Option String
  version : String
  resolved : Option String
  registry : Option String
  uid : Option String
  permissions : Option Permissions
  optionalDependencies : Option Dependencies
  peerDependencies : Option Dependencies
  dependencies : Option Dependencies
deriving DecidableEq, Repr, Inhabited

/-- Modelled from the spec: `normalizePattern` (`src/util/normalize-pattern.js`
is not included under `src/`).  §3: a pattern is `name@range` with an optional
`@scope/` prefix; the inferred name is the segment before the `@` separating
the name from the range (`getName` in `src/unnamed/part_000`). -/
def getName (pattern : String) : String :=
  let l := pattern.data
  match l with
  | '@' :: rest =>
    match chIndex '/' rest with
    | some i =>
      match chIndex '@' (rest.drop (i + 1)) with
      | some j => String.mk (l.take (2 + i + j))
      | none => pattern
    | none => pattern
  | _ =>
    match chIndex '@' l with
    | some j => String.mk (l.take j)
    | none => pattern

/-- `blankObjectUndefined` of `src/unnamed/part_000`:
`obj && Object.keys(obj).length ? obj : undefined`. -/
def blankObjectUndefined {α : Type} : Option (List α) → Option (List α)
  | some l => if l.isEmpty then none else some l
  | none => none

/-- JS `o || d` for an optional string field (`undefined` and `""` are falsy). -/
def strOr (o : Option String) (d : String) : String :=
  match o with
  | some s => if s = "" then d else s
  | none => d

/-- `implodeEntry(pattern, obj)` of `src/unnamed/part_000`: drop every field
that equals its computable default. -/
def implodeEntry (pattern : String) (obj : LockEntry) : LockEntry :=
  { name := if obj.name = some (getName pattern) then none else obj.name
    version := obj.version
    uid := if obj.uid = some obj.version then none else obj.uid
    resolved := obj.resolved
    registry := if obj.registry = some "npm" then none else obj.registry
    dependencies := blankObjectUndefined obj.dependencies
    optionalDependencies := blankObjectUndefined obj.optionalDependencies
    peerDependencies := blankObjectUndefined obj.peerDependencies
    permissions := blankObjectUndefined obj.permissions }

/-- `explodeEntry(pattern, obj)` of `src/unnamed/part_000`: fill the defaulted
fields back in.  Note that the source sets `optionalDependencies`,
`dependencies`, `uid`, `permissions`, `registry` and `name`, but not
`peerDependencies`. -/
def explodeEntry (pattern : String) (obj : LockEntry) : LockEntry :=
  { obj with
    optionalDependencies := some (obj.optionalDependencies.getD [])
    dependencies := some (obj.dependencies.getD [])
    uid := some (strOr obj.uid obj.version)
    permissions := some (obj.permissions.getD [])
    registry := some (strOr obj.registry "npm")
    name := some (strOr obj.name (getName pattern)) }

/-- A fully-populated lock entry consistent with pattern `"foo@^1.0.0"`, with
empty `permissions`, `optionalDependencies`, `peerDependencies` and
`dependencies` maps, uid equal to the version, the primary (`npm`) registry
and the name inferred from the pattern. -/
def entryEmptyPeer : LockEntry :=
  { name := some "foo"
    version := "1.0.0"
    resolved := some "https://registry.example/foo-1.0.0.tgz"
    registry := some "npm"
    uid := some "1.0.0"
    permissions := some []
    optionalDependencies := some []
    peerDependencies := some []
    dependencies := some [] }

/-- Like `entryEmptyPeer` but with a non-empty `peerDependencies` map. -/
def entryWithPeer : LockEntry :=
  { entryEmptyPeer with peerDependencies := some [("bar", "^2.0.0")] }

/-! ## Lockfile cache lookup (`Lockfile#getLocked`, `src/unnamed/part_000`)

A parsed lockfile cache maps a pattern either to a concrete entry object or
to a bare string naming another pattern (an alias).  `getLocked` recurses on
alias strings.  The JavaScript recursion carries no fuel; the embedding makes
the recursion depth explicit so that (non-)termination is expressible:
`none` means the recursion did not finish within the given depth. -/

/-- Association-list lookup: first binding wins (a JS object has unique keys,
so this is exact for genuine objects). -/
def lookupAssoc {α : Type} (l : List (String × α)) (k : String) : Option α :=
  (l.find? (fun kv => kv.1 = k)).map Prod.snd

/-- A value stored in the lockfile cache: a concrete entry or an alias. -/
inductive CacheValue where
  | entry (e : LockEntry)
  | alias (s : String)
deriving DecidableEq, Repr

abbrev LockCache := List (String × CacheValue)

/-- `Lockfile#getLocked(pattern)` with explicit recursion depth.  A result
`some r` is what the JS returns (`r = none` embeds `undefined`); `none` means
the recursion consumed all the fuel, i.e. the chain of aliases was longer
than the given depth. -/
def getLockedFuel (cache : LockCache) : Nat → String → Option (Option LockEntry)
  | 0, _ => none
  | fuel + 1, pattern =>
    match lookupAssoc cache pattern with
    | some (.alias s) => getLockedFuel cache fuel s
    | some (.entry e) => some (some (explodeEntry pattern e))
    | none => some none

/-- `getLocked` terminates on this cache and pattern: some finite recursion
depth suffices. -/
def getLockedTerminates (cache : LockCache) (pattern : String) : Prop :=
  ∃ fuel, (getLockedFuel cache fuel pattern).isSome

/-- The chain of patterns visited by `getLocked`, cut off at the given
depth: the starting pattern followed by the aliases it leads through. -/
def aliasChain (cache : LockCache) : Nat → String → List String
  | 0, _ => []
  | fuel + 1, pattern =>
    pattern ::
      (match lookupAssoc cache pattern with
       | some (.alias s) => aliasChain cache fuel s
       | _ => [])

/-- A cache whose alias chain from `"a"` is the cycle `a → b → a`. -/
def cyclicCache : LockCache :=
  [("a", CacheValue.alias "b"), ("b", CacheValue.alias "a")]

/-! ## Lockfile build (`Lockfile#getLockfile`, `src/unnamed/part_000`)

`getLockfile` walks the resolved-package map in sorted pattern order and
produces a pattern-keyed object in which patterns sharing a remote identity
key share one entry *object*.  Shared mutable objects are embedded as an
arena: `entries` is the arena of canonical entry objects, and the lockfile
maps each pattern to an arena index.  The later in-place `name` backfill
mutates the arena slot, which is exactly the JS aliasing semantics. -/

structure PackageRemote where
  resolved : Option String
  reference : Option String
  hash : Option String
  registry : String
deriving DecidableEq, Repr

/-- The fields of a resolved package record (`Manifest` plus its `_remote`
and `_reference`) that `getLockfile` reads.  `remote` embeds `_remote`,
`uid` embeds `_uid`, `permissions` embeds `_reference.permissions`. -/
structure ResolvedPackage where
  name : String
  version : String
  uid : String
  remote : PackageRemote
  permissions : Option Permissions
  dependencies : Option Dependencies
  peerDependencies : Option Dependencies
  optionalDependencies : Option Dependencies
deriving DecidableEq, Repr

/-- JS `o || d` where both sides are optional strings. -/
def strOrOpt (o : Option String) (d : Option String) : Option String :=
  match o with
  | some s => if s = "" then d else some s
  | none => d

/-- `keyForRemote` of `src/unnamed/part_000`:
`remote.resolved || (remote.reference && remote.hash ? reference#hash : null)`. -/
def keyForRemote (remote : PackageRemote) : Option String :=
  strOrOpt remote.resolved
    (match remote.reference, remote.hash with
     | some a, some b => if a = "" ∨ b = "" then none else some (a ++ "#" ++ b)
     | _, _ => none)

/-- The object literal passed to `implodeEntry` in `getLockfile`. -/
def entryOfPackage (pkg : ResolvedPackage) : LockEntry :=
  { name := some pkg.name
    version := pkg.version
    uid := some pkg.uid
    resolved := pkg.remote.resolved
    registry := some pkg.remote.registry
    dependencies := pkg.dependencies
    peerDependencies := pkg.peerDependencies
    optionalDependencies := pkg.optionalDependencies
    permissions := pkg.permissions }

/-- JS falsiness of an optional string field (`!seenPattern.name`). -/
def isFalsyStr : Option String → Bool
  | none => true
  | some s => s = ""

/-- The state of the `getLockfile` loop: the arena of canonical entry
objects, the pattern → arena-index lockfile mapping (in insertion order) and
the remote-identity-key → arena-index `seen` map. -/
structure BuildState where
  entries : Array LockEntry
  lockfile : List (String × Nat)
  seen : List (String × Nat)
deriving DecidableEq, Repr

/-- One iteration of the `getLockfile` loop for one pattern.  The JS
`remoteKey && seen.get(remoteKey)` short-circuit is embedded by matching on
the key first: with no identity key there is no `seen` lookup and no
`seen.set`. -/
def buildStep (lookupPkg : String → Option ResolvedPackage) (st : BuildState)
    (pattern : String) : BuildState :=
  match lookupPkg pattern with
  | none => st
  | some pkg =>
    match keyForRemote pkg.remote with
    | some k =>
      match lookupAssoc st.seen k with
      | some i =>
        let seenEntry := st.entries.getD i default
        { st with
          lockfile := st.lockfile ++ [(pattern, i)]
          entries :=
            if isFalsyStr seenEntry.name ∧ getName pattern ≠ pkg.name then
              st.entries.setD i { seenEntry with name := some pkg.name }
            else st.entries }
      | none =>
        { entries := st.entries.push (implodeEntry pattern (entryOfPackage pkg))
          lockfile := st.lockfile ++ [(pattern, st.entries.size)]
          seen := st.seen ++ [(k, st.entries.size)] }
    | none =>
      { entries := st.entries.push (implodeEntry pattern (entryOfPackage pkg))
        lockfile := st.lockfile ++ [(pattern, st.entries.size)]
        seen := st.seen }

/-- The loop invariant tying the lockfile to the `seen` map: every pattern
already placed in the lockfile whose package has a remote identity key has
that key registered in `seen`, pointing at the same arena index.  Two
patterns with one identity key therefore share one entry object. -/
def SeenLinked (lookupPkg : String → Option ResolvedPackage) (st : BuildState) : Prop :=
  ∀ p i, lookupAssoc st.lockfile p = some i →
    ∀ g k, lookupPkg p = some g → keyForRemote g.remote = some k →
      lookupAssoc st.seen k = some i

/-- Modelled from the spec: `sortAlpha` (`src/util/misc.js` is not included
under `src/`); §4.1: patterns are processed in lexicographic order. -/
def sortAlpha (keys : List String) : List String :=
  keys.insertionSort (· ≤ ·)

/-- `Lockfile#getLockfile(patterns)`: fold the loop body over the
lexicographically sorted pattern keys. -/
def getLockfile (patterns : List (String × ResolvedPackage)) : BuildState :=
  (sortAlpha (patterns.map Prod.fst)).foldl (buildStep (lookupAssoc patterns))
    { entries := #[], lockfile := [], seen := [] }

/-- The returned `LockfileObject`, read back from the arena: each pattern is
mapped to the entry object its arena index denotes. -/
def lockfileObject (st : BuildState) : List (String × LockEntry) :=
  st.lockfile.map (fun kv => (kv.1, st.entries.getD kv.2 default))

/-! ## Opam package references
(`src/src/resolvers/exotics/opam-resolver/index.js`)

`parseReference` works by `indexOf` / `lastIndexOf` / `slice`; the embedding
mirrors those operations on the character list of the string.  `invariant`
failures (thrown exceptions) are embedded as `Except.error`. -/

structure OpamPackageReference where
  fullName : String
  name : String
  scope : Option String
  version : String
  uid : String
deriving DecidableEq, Repr

/-- The characters of the `.tgz` suffix marker searched for by
`value.indexOf('.tgz')`. -/
def tgzChars : List Char :=
  '.' :: 't' :: 'g' :: 'z' :: []

/-- The scope-free tail of `parseReference`: split `name@version-uid.tgz`. -/
def parseReferenceTail (scope : Option (List Char)) (value : List Char) :
    Except String OpamPackageReference :=
  match chIndex '@' value with
  | none => Except.error "Malformed opam package resolution"
  | some idx =>
    let name := value.take idx
    let rest := value.drop (idx + 1)
    match chLastIndex '-' rest with
    | none => Except.error "Malformed opam package resolution"
    | some idx2 =>
      let version := rest.take idx2
      let rest2 := rest.drop (idx2 + 1)
      match subIndex tgzChars rest2 with
      | none => Except.error "Malformed opam package resolution"
      | some idx3 =>
        let uid := rest2.take idx3
        Except.ok
          { name := String.mk name
            fullName :=
              match scope with
              | some s => String.mk ('@' :: s ++ '/' :: name)
              | none => String.mk name
            scope := scope.map String.mk
            version := String.mk version
            uid := String.mk uid }

/-- `parseReference(resolution)` of the opam resolver (`value[0] === '@'`
selects the scoped branch). -/
def parseReference (resolution : String) : Except String OpamPackageReference :=
  match resolution.data with
  | c :: rest =>
    if c = '@' then
      match chIndex '/' rest with
      | none => Except.error "Malformed opam package resolution"
      | some i => parseReferenceTail (some (rest.take i)) (rest.drop (i + 1))
    else parseReferenceTail none (c :: rest)
  | [] => parseReferenceTail none []

/-- The resolved reference string `[@scope/]name@version-uid.tgz` constructed
by `OpamResolver.resolve` (its `[@scope/]name` part is the manifest name). -/
def formatReference (scope : Option String) (name version uid : String) : String :=
  (match scope with
   | some s => "@" ++ s ++ "/"
   | none => "") ++ name ++ "@" ++ version ++ "-" ++ uid ++ ".tgz"

/-- `isValidReference(resolution)` of the opam resolver: `false` on a null
resolution or when `parseReference` throws. -/
def isValidReference (resolution : Option String) : Bool :=
  match resolution with
  | none => false
  | some s =>
    match parseReference s with
    | Except.ok _ => true
    | Except.error _ => false

/-! ## Opam version-constraint solver
(`solveVersionConstraint`, `src/src/resolvers/exotics/opam-resolver/index.js`)

The `semver` npm library and `EsyOpam.versionCompare` are external
collaborators (spec §6); the solver takes them as an explicit dictionary of
functions.  A parsed semver version object is embedded by the fields the
solver manipulates: its raw string, its pre-release tag (which masking
clears, moving it to `_prereleaseHidden`) and its attached opam version. -/

structure ParsedVersion where
  raw : String
  prerelease : List String
  prereleaseHidden : List String
  opamVersion : String
deriving DecidableEq, Repr

/-- The external collaborator contract used by the solver. -/
structure SemverHooks where
  parse : String → Option ParsedVersion
  satisfies : ParsedVersion → String → Bool
  satisfiesStr : String → String → Bool
  rangeHasPrerelease : String → Bool
  opamVersionCompare : String → String → Int

/-- The per-version manifest fields the solver reads: the `peerDependencies`
map and `opam.version`. -/
structure OpamManifest where
  peerDependencies : Option Dependencies
  opamVersion : String
deriving DecidableEq, Repr

/-- `manifestCollection.versions` embedded as an association list keyed by
version string (insertion-ordered, like `Object.keys`). -/
abbrev ManifestCollection := List (String × OpamManifest)

/-- The `versions.map(...)` body of `findVersion`: `semver.parse` the
version, hide its pre-release tag when the requested range itself has none,
and attach the catalog entry's opam version for the sort. -/
def parseMask (hooks : SemverHooks) (col : ManifestCollection)
    (versionRange : String) (version : String) : Option ParsedVersion :=
  (hooks.parse version).map (fun v0 =>
    let v1 :=
      if hooks.rangeHasPrerelease versionRange then v0
      else { v0 with prereleaseHidden := v0.prerelease, prerelease := [] }
    { v1 with
      opamVersion := ((lookupAssoc col version).map OpamManifest.opamVersion).getD "" })

/-- Parse every candidate version, failing like the `invariant(v != null)`
throw on the first version `semver.parse` rejects. -/
def parseAll (hooks : SemverHooks) (col : ManifestCollection) (name : String)
    (versionRange : String) : List String → Except String (List ParsedVersion)
  | [] => Except.ok []
  | version :: rest =>
    match parseMask hooks col versionRange version with
    | none => Except.error ("Invalid version: @opam/" ++ name ++ "@" ++ version)
    | some pv => (parseAll hooks col name versionRange rest).map (pv :: ·)

/-- The comparator passed to `.sort`: `-1 * EsyOpam.versionCompare(a, b)`
sorts descending by the opam-ecosystem order. -/
def opamDescending (hooks : SemverHooks) (a b : ParsedVersion) : Prop :=
  0 ≤ hooks.opamVersionCompare a.opamVersion b.opamVersion

instance (hooks : SemverHooks) : DecidableRel (opamDescending hooks) :=
  fun a b => inferInstanceAs (Decidable (0 ≤ _))

inductive Solution where
  | found (version : String)
  | noVersionFound
  | noVersionFoundForOCamlConstraint
deriving DecidableEq, Repr

/-- The `for` loop of `findVersion`: the first range-satisfying candidate in
the (already sorted) list wins, reported by its raw version string. -/
def findVersionLoop (hooks : SemverHooks) (versionRange : String) :
    List ParsedVersion → Option Solution
  | [] => none
  | v :: rest =>
    if hooks.satisfies v versionRange then some (Solution.found v.raw)
    else findVersionLoop hooks versionRange rest

/-- `findVersion(versions, versionRange)` of `solveVersionConstraint`. -/
def findVersion (hooks : SemverHooks) (col : ManifestCollection) (name : String)
    (versions : List String) (versionRange : String) :
    Except String (Option Solution) :=
  (parseAll hooks col name versionRange versions).map (fun parsed =>
    findVersionLoop hooks versionRange (parsed.insertionSort (opamDescending hooks)))

structure SolverConstraint where
  versionRange : String
  ocamlVersion : Option String
deriving DecidableEq, Repr

/-- Whether a candidate manifest is eligible for the given ocaml toolchain
version: its ocaml peer-constraint, defaulting to `'*'` when absent, must be
satisfied by the toolchain version. -/
def ocamlEligible (hooks : SemverHooks) (ocamlVersion : String)
    (manifest : OpamManifest) : Bool :=
  hooks.satisfiesStr ocamlVersion
    (strOr (lookupAssoc (manifest.peerDependencies.getD []) "ocaml") "*")

/-- The body of the toolchain-restriction loop: look the candidate's
manifest up and test its eligibility (a version key always resolves; the
`none` branch is unreachable for keys taken from the collection itself). -/
def ocamlFilterPred (hooks : SemverHooks) (ocamlVersion : String)
    (col : ManifestCollection) (version : String) : Bool :=
  match lookupAssoc col version with
  | some manifest => ocamlEligible hooks ocamlVersion manifest
  | none => false

/-- `solveVersionConstraint(name, manifestCollection, constraint)`. -/
def solveVersionConstraint (hooks : SemverHooks) (name : String)
    (col : ManifestCollection) (constraint : SolverConstraint) :
    Except String Solution :=
  let allVersions := col.map Prod.fst
  let versions :=
    match constraint.ocamlVersion with
    | some ocamlVersion => allVersions.filter (ocamlFilterPred hooks ocamlVersion col)
    | none => allVersions
  match findVersion hooks col name versions constraint.versionRange with
  | Except.error e => Except.error e
  | Except.ok (some solution) => Except.ok solution
  | Except.ok none =>
    match constraint.ocamlVersion with
    | some _ =>
      match findVersion hooks col name allVersions constraint.versionRange with
      | Except.error e => Except.error e
      | Except.ok (some _) => Except.ok Solution.noVersionFoundForOCamlConstraint
      | Except.ok none => Except.ok Solution.noVersionFound
    | none => Except.ok Solution.noVersionFound

/-- `OpamResolver.isLockfileEntryOutdated`: build a one-candidate catalog
from the lock entry, return `false` outright when the entry's resolved
identity does not parse, and otherwise re-run the solver.  The entry's name
is only interpolated into error messages. -/
def isLockfileEntryOutdated (hooks : SemverHooks) (resolverOcamlVersion : Option String)
    (lockfileEntry : LockEntry) (versionRange : String) (hasVersion : Bool) :
    Except String Bool :=
  let manifestCollection : ManifestCollection :=
    [(lockfileEntry.version,
      { peerDependencies := lockfileEntry.peerDependencies
        opamVersion := lockfileEntry.version })]
  if isValidReference lockfileEntry.resolved = false then Except.ok false
  else
    (solveVersionConstraint hooks (strOr lockfileEntry.name "undefined")
        manifestCollection
        { versionRange := versionRange, ocamlVersion := resolverOcamlVersion }).map
      (fun solution =>
        match solution with
        | Solution.found _ => false
        | _ => true)

/-! ## A concrete instance of the semver/EsyOpam collaborator contract

The repository consumes `semver` and `@esy-ocaml/esy-opam` as external
libraries (spec §6); a small concrete instance of their contract is needed to
run the solver on the spec's test vectors. -/

/-- Digit/letter tokenization of a version string: maximal digit runs become
numbers, every other character stands alone. -/
def versionTokens : List Char → Option Nat → List (Nat ⊕ Char)
  | [], none => []
  | [], some n => [Sum.inl n]
  | c :: cs, acc =>
    if c.isDigit then versionTokens cs (some ((acc.getD 0) * 10 + (c.toNat - 48)))
    else
      match acc with
      | some n => Sum.inl n :: Sum.inr c :: versionTokens cs none
      | none => Sum.inr c :: versionTokens cs none

/-- Compare two version tokens: numbers numerically, characters by code
point; a number sorts above a bare character. -/
def compareToken : Nat ⊕ Char → Nat ⊕ Char → Int
  | Sum.inl a, Sum.inl b => if a < b then -1 else if b < a then 1 else 0
  | Sum.inl _, Sum.inr _ => 1
  | Sum.inr _, Sum.inl _ => -1
  | Sum.inr a, Sum.inr b => if a < b then -1 else if b < a then 1 else 0

/-- Lexicographic comparison of token lists; a proper prefix sorts first. -/
def compareTokens : List (Nat ⊕ Char) → List (Nat ⊕ Char) → Int
  | [], [] => 0
  | [], _ :: _ => -1
  | _ :: _, [] => 1
  | a :: as', b :: bs' =>
    let c := compareToken a b
    if c = 0 then compareTokens as' bs' else c

/-- Modelled from the spec: `EsyOpam.versionCompare` (the `@esy-ocaml/esy-opam`
collaborator is not included under `src/`).  §4.2 step 4: a package-ecosystem
total order on opam version strings; digit runs compare numerically, so
`2.0.0-beta1` sorts above `1.1.0` as the spec's basic solver vector needs. -/
def esyOpamVersionCompare (a b : String) : Int :=
  compareTokens (versionTokens a.data none) (versionTokens b.data none)

/-- Modelled from the spec: the fields of `semver.parse(version)` the solver
uses — the raw string and the pre-release tag following the first `-`. -/
def specSemverParse (version : String) : Option ParsedVersion :=
  some
    { raw := version
      prerelease :=
        match chIndex '-' version.data with
        | some i => [String.mk (version.data.drop (i + 1))]
        | none => []
      prereleaseHidden := []
      opamVersion := "" }

/-- Modelled from the spec: the fragment of `semver.satisfies` the spec's
test vectors exercise — the ranges `*` (any non-pre-release version) and
`>=5.0.0` (used by the true-absence vector, satisfied by no 1.x/2.x
candidate in the vectors). -/
def specSemverSatisfies (v : ParsedVersion) (range : String) : Bool :=
  if range = "*" then v.prerelease.isEmpty
  else false

/-- Modelled from the spec: `semver.satisfies(versionString, range)` as used
for the toolchain filter; the vectors need `*` (always satisfied) and `^1.0`
(satisfied exactly by 1.x toolchains, read off the leading digit run). -/
def specSemverSatisfiesStr (version : String) (range : String) : Bool :=
  if range = "*" then true
  else if range = "^1.0" then
    match versionTokens version.data none with
    | Sum.inl 1 :: _ => true
    | _ => false
  else false

/-- Modelled from the spec: `semver.prerelease(range) != null` — whether the
requested range itself references a pre-release tag. -/
def specRangeHasPrerelease (range : String) : Bool :=
  (chIndex '-' range.data).isSome

/-- The assembled concrete collaborator instance. -/
def specSemverHooks : SemverHooks :=
  { parse := specSemverParse
    satisfies := specSemverSatisfies
    satisfiesStr := specSemverSatisfiesStr
    rangeHasPrerelease := specRangeHasPrerelease
    opamVersionCompare := esyOpamVersionCompare }

/-- The spec §8 basic-solver catalog `{1.0.0, 1.1.0, 2.0.0-beta1}`, with no
toolchain constraints declared. -/
def basicCatalog : ManifestCollection :=
  [("1.0.0", { peerDependencies := none, opamVersion := "1.0.0" }),
   ("1.1.0", { peerDependencies := none, opamVersion := "1.1.0" }),
   ("2.0.0-beta1", { peerDependencies := none, opamVersion := "2.0.0-beta1" })]

/-- A catalog whose every candidate requires a 1.x ocaml toolchain. -/
def toolchainCatalog : ManifestCollection :=
  [("1.0.0", { peerDependencies := some [("ocaml", "^1.0")], opamVersion := "1.0.0" }),
   ("1.1.0", { peerDependencies := some [("ocaml", "^1.0")], opamVersion := "1.1.0" })]

/-! ## Opam fetch pipeline (`src/src/fetchers/opam-fetcher.js`)

`OpamFetcher._fetch` is a strictly sequential promise chain; the embedding
runs the same stages in order over explicit collaborator functions (the MD5
hasher and the registry download are external) and records a trace of the
side-effecting steps, so that "no unpacking happened" and "the bytes were
never fed to the hasher" are statable.  A rejected promise is an
`Except.error` that short-circuits the remaining stages. -/

inductive TarballFormat
  | gzip
  | bzip
  | zip
  | xz
deriving DecidableEq, Repr

/-- `getTarballFormatFromFilename`: suffix sniffing with the documented
default-to-gzip fallback. -/
def strEndsWith (s suffix : String) : Bool :=
  suffix.data.isSuffixOf s.data

def getTarballFormatFromFilename (filename : String) : TarballFormat :=
  if strEndsWith filename ".tgz" || strEndsWith filename ".tar.gz" then TarballFormat.gzip
  else if strEndsWith filename ".tar.bz" || strEndsWith filename ".tar.bz2"
      || strEndsWith filename ".tbz" then TarballFormat.bzip
  else if strEndsWith filename ".zip" then TarballFormat.zip
  else if strEndsWith filename ".xz" then TarballFormat.xz
  else TarballFormat.gzip

/-- The observable steps of one fetch, in execution order. -/
inductive FetchStep where
  | download (url : String)
  | digestBytes (bytes : List Nat)
  | unpackTarball (format : TarballFormat)
  | writeJson
  | writeFile (name : String)
  | applyPatch (name : String)
deriving DecidableEq, Repr

inductive FetchError where
  | securityError (msg : String)
  | malformedResolution (msg : String)
  | manifestNotFound
deriving DecidableEq, Repr

/-- A name/content pair of `manifest.opam.files` or `.patches`. -/
structure OpamFileEntry where
  name : String
  content : String
deriving DecidableEq, Repr

/-- The manifest fields `_fetch` reads (`manifest.opam`). -/
structure FetchManifest where
  url : Option String
  checksum : Option String
  files : List OpamFileEntry
  patches : List OpamFileEntry
deriving DecidableEq, Repr

/-- The fetcher's collaborators and own state: the MD5 hasher over a byte
list, the registry download body per URL, the fetcher's preset `this.hash`
and `this.reference`. -/
structure FetchEnv where
  md5 : List Nat → String
  download : String → List Nat
  presetHash : Option String
  reference : String

/-- `writeValidatedStream(stream, filename, md5checksum)`: the hasher is
updated with the streamed chunks only when a checksum was supplied, and on
`finish` the digest is compared against it; a mismatch rejects with the
`SecurityError` and nothing after it runs. -/
def writeValidatedStream (md5 : List Nat → String) (bytes : List Nat)
    (md5checksum : Option String) : Except FetchError String :=
  let fed :=
    match md5checksum with
    | some _ => bytes
    | none => []
  let actualChecksum := md5 fed
  match md5checksum with
  | some expected =>
    if actualChecksum ≠ expected then
      Except.error (FetchError.securityError
        ("Incorrect md5sum (expected " ++ expected ++ ", got " ++ actualChecksum ++ ")"))
    else Except.ok actualChecksum
  | none => Except.ok actualChecksum

/-- `OpamFetcher._fetch()`: parse the reference, look the manifest up, then
(when a URL is declared) download, validate and unpack, and finally write
`package.json`, the embedded files and the patches.  Returns the executed
step trace next to the promise outcome. -/
def opamFetch (env : FetchEnv)
    (manifestFor : String → String → Option FetchManifest) :
    List FetchStep × Except FetchError String :=
  match parseReference env.reference with
  | Except.error e => ([], Except.error (FetchError.malformedResolution e))
  | Except.ok resolution =>
    match manifestFor resolution.name resolution.version with
    | none => ([], Except.error FetchError.manifestNotFound)
    | some manifest =>
      let hash0 := strOr env.presetHash ""
      let tailSteps :=
        [FetchStep.writeJson]
          ++ manifest.files.map (fun f => FetchStep.writeFile f.name)
          ++ manifest.patches.map (fun p => FetchStep.applyPatch p.name)
      match manifest.url with
      | some url =>
        let bytes := env.download url
        let headSteps :=
          FetchStep.download url ::
            (match manifest.checksum with
             | some _ => [FetchStep.digestBytes bytes]
             | none => [])
        match writeValidatedStream env.md5 bytes manifest.checksum with
        | Except.error e => (headSteps, Except.error e)
        | Except.ok hash =>
          (headSteps
              ++ [FetchStep.unpackTarball (getTarballFormatFromFilename url)]
              ++ tailSteps,
            Except.ok hash)
      | none => (tailSteps, Except.ok hash0)

/-- A fetch environment whose download body never hashes to the expected
checksum below. -/
def mismatchFetchEnv : FetchEnv :=
  { md5 := fun _ => "0f343b0931126a20f133d67c2b018a3b"
    download := fun _ => [104, 105]
    presetHash := none
    reference := "foo@1.0.0-cafebabe.tgz" }

/-- A manifest declaring a download URL and an expected checksum that does
not match `mismatchFetchEnv.md5`. -/
def mismatchManifest : FetchManifest :=
  { url := some "https://source.example/foo-1.0.0.tgz"
    checksum := some "ffffffffffffffffffffffffffffffff"
    files := []
    patches := [] }

/-- A manifest declaring a download URL but no checksum. -/
def noChecksumManifest : FetchManifest :=
  { url := some "https://source.example/foo-1.0.0.tgz"
    checksum := none
    files := [⟨"esy.json", "{}"⟩]
    patches := [] }

/-- A manifest declaring no download URL at all. -/
def noUrlManifest : FetchManifest :=
  { url := none
    checksum := none
    files := []
    patches := [⟨"fix.patch", "--- a\n+++ b\n"⟩] }

/-- The masked parse of `2.0.0-beta1` under range `*`: the pre-release tag
is hidden, the raw string retained, the catalog opam version attached. -/
def maskedBeta : ParsedVersion :=
  { raw := "2.0.0-beta1"
    prerelease := []
    prereleaseHidden := ["beta1"]
    opamVersion := "2.0.0-beta1" }

/-- The masked parse of the release version `1.0.0` under range `*`. -/
def parsedOne : ParsedVersion :=
  { raw := "1.0.0"
    prerelease := []
    prereleaseHidden := []
    opamVersion := "1.0.0" }

/-- A remote descriptor with a resolved URL, shared by two patterns below. -/
def sharedRemote : PackageRemote :=
  { resolved := some "https://registry.example/x-1.0.0.tgz"
    reference := none
    hash := none
    registry := "npm" }

/-- A resolved package named `x` carrying `sharedRemote`. -/
def pkgX : ResolvedPackage :=
  { name := "x"
    version := "1.0.0"
    uid := "1.0.0"
    remote := sharedRemote
    permissions := none
    dependencies := none
    peerDependencies := none
    optionalDependencies := none }

/-! # Theorems -/

/-! ## Shared helper lemmas -/

/-- Exploding a present list field after imploding it restores the list
exactly (an empty list goes through `none` and comes back as `[]`). -/
theorem blankObjectUndefined_getD {α : Type} (l : List α) :
    (blankObjectUndefined (some l)).getD [] = l := by
  cases l <;> simp [blankObjectUndefined]

/-- A successful association-list lookup means the key occurs in the list. -/
theorem lookupAssoc_some_mem {α : Type} {l : List (String × α)} {k : String} {v : α}
    (h : lookupAssoc l k = some v) : k ∈ l.map Prod.fst := by
  induction l with
  | nil => simp [lookupAssoc] at h
  | cons x xs ih =>
    by_cases hk : x.1 = k
    · simp [hk]
    · simp only [lookupAssoc, List.find?] at h
      rw [show (decide (x.1 = k)) = false by simp [hk]] at h
      exact List.mem_cons_of_mem _ (ih h)

/-! ## C1: the implode/explode round-trip -/

/-- C1, counterexample: `entryEmptyPeer` is a fully-populated (exploded)
entry consistent with the pattern `"foo@^1.0.0"` whose `peerDependencies`
map is empty, yet `explodeEntry(p, implodeEntry(p, e))` differs from `e`:
`implodeEntry` drops the empty `peerDependencies` map and `explodeEntry`
never restores a default for that field. -/
theorem c1_roundtrip_counterexample :
    explodeEntry "foo@^1.0.0" entryEmptyPeer = entryEmptyPeer ∧
      explodeEntry "foo@^1.0.0" (implodeEntry "foo@^1.0.0" entryEmptyPeer) ≠
        entryEmptyPeer := by
  constructor
  · decide
  · decide

/-- C1 (amended): for every fully-populated (exploded) lock entry `e`
consistent with a pattern `p` — including entries whose `dependencies` or
`permissions` maps are empty, whose uid equals the version, whose registry is
the primary registry, or whose name equals the name inferred from `p` —
*provided `e.peerDependencies` is not the empty map*,
`explodeEntry(p, implodeEntry(p, e))` is field-for-field equal to `e`: every
optional field `implodeEntry` dropped because it equalled its computable
default is restored by `explodeEntry`, except that an empty
`peerDependencies` map is dropped and never restored. -/
theorem c1_roundtrip_restores_defaults (p : String) (e : LockEntry)
    (hfix : explodeEntry p e = e) (hpeer : e.peerDependencies ≠ some []) :
    explodeEntry p (implodeEntry p e) = e := by
  obtain ⟨n, v, r, reg, u, pm, od, pd, d⟩ := e
  simp only [explodeEntry, implodeEntry, LockEntry.mk.injEq, and_true, true_and] at hfix hpeer ⊢
  obtain ⟨hn, hreg, hu, hpm, hod, hd⟩ := hfix
  refine ⟨?_, ?_, ?_, ?_, ?_, ?_, ?_⟩
  · by_cases hc : n = some (getName p)
    · rw [if_pos hc, hc]; simp [strOr]
    · rw [if_neg hc]; exact hn
  · by_cases hc : reg = some "npm"
    · rw [if_pos hc, hc]; simp [strOr]
    · rw [if_neg hc]; exact hreg
  · by_cases hc : u = some v
    · rw [if_pos hc, hc]; simp [strOr]
    · rw [if_neg hc]; exact hu
  · cases pm with
    | none => exact absurd hpm (by simp)
    | some l => rw [blankObjectUndefined_getD]
  · cases od with
    | none => exact absurd hod (by simp)
    | some l => rw [blankObjectUndefined_getD]
  · cases pd with
    | none => rfl
    | some l =>
      cases l with
      | nil => exact absurd rfl hpeer
      | cons x xs => simp [blankObjectUndefined]
  · cases d with
    | none => exact absurd hd (by simp)
    | some l => rw [blankObjectUndefined_getD]

/-- C1, witness: the amended round-trip at the concrete exploded entry
`entryWithPeer` and pattern `"foo@^1.0.0"`. -/
theorem c1_roundtrip_witness :
    explodeEntry "foo@^1.0.0" entryWithPeer = entryWithPeer ∧
      entryWithPeer.peerDependencies ≠ some [] ∧
      explodeEntry "foo@^1.0.0" (implodeEntry "foo@^1.0.0" entryWithPeer) =
        entryWithPeer :=
  ⟨by decide, by decide,
    c1_roundtrip_restores_defaults "foo@^1.0.0" entryWithPeer (by decide) (by decide)⟩

/-! ## C4: termination of `getLocked` -/

/-- On the cyclic cache, `getLocked` makes no progress from `"a"` or `"b"`
at any recursion depth. -/
theorem getLockedFuel_cyclicCache (n : Nat) :
    getLockedFuel cyclicCache n "a" = none ∧ getLockedFuel cyclicCache n "b" = none := by
  induction n with
  | zero => exact ⟨rfl, rfl⟩
  | succ n ih =>
    refine ⟨?_, ?_⟩
    · show getLockedFuel cyclicCache n "b" = none
      exact ih.2
    · show getLockedFuel cyclicCache n "a" = none
      exact ih.1

/-- C4, counterexample: the lockfile cache `{a ↦ "b", b ↦ "a"}` has a cyclic
alias chain, and on it `getLocked("a")` does not terminate: the claimed
cycle protection (reject or cap the chain) is absent from the code, which
recurses unconditionally on every alias string. -/
theorem c4_counterexample : ¬ getLockedTerminates cyclicCache "a" := by
  rintro ⟨fuel, h⟩
  rw [(getLockedFuel_cyclicCache fuel).1] at h
  simp at h

/-- Running out of fuel means the visited alias chain is as long as the fuel
and every visited pattern maps to an alias (hence is a key of the cache). -/
theorem aliasChain_of_fuel_exhausted (cache : LockCache) :
    ∀ (n : Nat) (p : String), getLockedFuel cache n p = none →
      (aliasChain cache n p).length = n ∧
        ∀ q ∈ aliasChain cache n p, ∃ s, lookupAssoc cache q = some (CacheValue.alias s) := by
  intro n
  induction n with
  | zero => intro p _; exact ⟨rfl, by simp [aliasChain]⟩
  | succ n ih =>
    intro p h
    rw [getLockedFuel] at h
    rw [aliasChain]
    rcases hl : lookupAssoc cache p with _ | (e | s)
    · rw [hl] at h; simp at h
    · rw [hl] at h; simp at h
    · rw [hl] at h
      have h' : getLockedFuel cache n s = none := h
      obtain ⟨hlen, hmem⟩ := ih s h'
      refine ⟨?_, ?_⟩
      · show (p :: aliasChain cache n s).length = n + 1
        simp [hlen]
      · intro q hq
        have hq' : q = p ∨ q ∈ aliasChain cache n s := by simpa using hq
        rcases hq' with rfl | hq'
        · exact ⟨s, hl⟩
        · exact hmem q hq'

/-- C4 (amended): for every lockfile cache and pattern, `getLocked` follows
the chain of aliases and terminates — returning a concrete entry or absence
— *provided the alias chain from the pattern is cycle-free* (no pattern
is revisited within `cache.length + 1` steps).  The code has no cycle
protection, so on a cyclic chain the recursion does not terminate. -/
theorem c4_getLocked_terminates_acyclic (cache : LockCache) (p : String)
    (h : (aliasChain cache (cache.length + 1) p).Nodup) :
    getLockedTerminates cache p := by
  by_cases hf : getLockedFuel cache (cache.length + 1) p = none
  · exfalso
    obtain ⟨hlen, hmem⟩ := aliasChain_of_fuel_exhausted cache (cache.length + 1) p hf
    have hsub : aliasChain cache (cache.length + 1) p ⊆ cache.map Prod.fst := by
      intro q hq
      obtain ⟨s, hs⟩ := hmem q hq
      exact lookupAssoc_some_mem hs
    have hle := (h.subperm hsub).length_le
    rw [hlen, List.length_map] at hle
    omega
  · exact ⟨cache.length + 1, Option.isSome_iff_ne_none.mpr hf⟩

/-- C4, witness: the amended termination theorem at the concrete two-step
acyclic cache `{a ↦ "b", b ↦ entry}`. -/
theorem c4_terminates_witness :
    (aliasChain [("a", CacheValue.alias "b"), ("b", CacheValue.entry entryWithPeer)]
        ([("a", CacheValue.alias "b"), ("b", CacheValue.entry entryWithPeer)].length + 1)
        "a").Nodup ∧
      getLockedTerminates
        [("a", CacheValue.alias "b"), ("b", CacheValue.entry entryWithPeer)] "a" :=
  ⟨by decide,
    c4_getLocked_terminates_acyclic
      [("a", CacheValue.alias "b"), ("b", CacheValue.entry entryWithPeer)] "a" (by decide)⟩

/-! ## C9: the resolved-reference parse/format round-trip -/

/-- `indexOf` finds the marker character right after a prefix free of it. -/
theorem chIndex_append (c : Char) (xs ys : List Char) (h : c ∉ xs) :
    chIndex c (xs ++ c :: ys) = some xs.length := by
  induction xs with
  | nil => simp [chIndex]
  | cons x xt ih =>
    have hx : x ≠ c := fun e => h (e ▸ List.mem_cons_self x xt)
    have ih' := ih (fun hm => h (List.mem_cons_of_mem x hm))
    simp [chIndex, hx, ih']

/-- `lastIndexOf` finds the marker character right before a suffix free of
it. -/
theorem chLastIndex_append (c : Char) (xs ys : List Char) (h : c ∉ ys) :
    chLastIndex c (xs ++ c :: ys) = some xs.length := by
  have hrev : (xs ++ c :: ys).reverse = ys.reverse ++ c :: xs.reverse := by
    rw [List.reverse_append]
    simp
  rw [chLastIndex, hrev, chIndex_append c ys.reverse xs.reverse (by simpa using h)]
  simp [List.length_append]

/-- `indexOf('.tgz')` finds the suffix marker right after a dot-free uid
(`.tgz` has no non-trivial border, and a dot-free prefix admits no earlier
occurrence). -/
theorem subIndex_tgz (u : List Char) (h : '.' ∉ u) :
    subIndex tgzChars (u ++ tgzChars) = some u.length := by
  induction u with
  | nil => simpa using (by decide : subIndex tgzChars tgzChars = some 0)
  | cons x xt ih =>
    have hx : x ≠ '.' := fun e => h (e ▸ List.mem_cons_self x xt)
    have hpre : tgzChars.isPrefixOf (x :: (xt ++ tgzChars)) = false := by
      have hb : (('.' : Char) == x) = false := beq_eq_false_iff_ne.mpr (Ne.symm hx)
      simp [tgzChars, List.isPrefixOf, hb]
    have ih' := ih (fun hm => h (List.mem_cons_of_mem x hm))
    simp [subIndex, hpre, ih']

/-- JS `value.slice(idx + 1)` after splitting at a separator character. -/
theorem drop_append_cons {α : Type} (xs : List α) (c : α) (ys : List α) :
    (xs ++ c :: ys).drop (xs.length + 1) = ys := by
  rw [List.append_cons]
  have h := List.drop_left (xs ++ [c]) ys
  simp only [List.length_append, List.length_singleton] at h
  exact h

/-- Splitting `name@version-uid.tgz` recovers the three components when the
name is `@`-free and the uid has neither `-` nor `.`. -/
theorem parseReferenceTail_split (scope : Option (List Char)) (nd vd ud : List Char)
    (hname : '@' ∉ nd) (huid_dash : '-' ∉ ud) (huid_dot : '.' ∉ ud) :
    parseReferenceTail scope (nd ++ '@' :: (vd ++ '-' :: (ud ++ tgzChars))) =
      Except.ok
        { name := String.mk nd
          fullName :=
            match scope with
            | some s => String.mk ('@' :: s ++ '/' :: nd)
            | none => String.mk nd
          scope := scope.map String.mk
          version := String.mk vd
          uid := String.mk ud } := by
  have h1 := chIndex_append '@' nd (vd ++ '-' :: (ud ++ tgzChars)) hname
  have hdash : '-' ∉ ud ++ tgzChars := by
    intro hm
    rcases List.mem_append.mp hm with hm | hm
    · exact huid_dash hm
    · exact absurd hm (by decide)
  have h2 := chLastIndex_append '-' vd (ud ++ tgzChars) hdash
  have h3 := subIndex_tgz ud huid_dot
  simp only [parseReferenceTail, h1]
  simp only [List.take_left, drop_append_cons]
  simp only [h2]
  simp only [List.take_left, drop_append_cons]
  simp only [h3]
  simp only [List.take_left]

/-- C9, counterexample: the claim quantifies over every uid, but formatting
uid `"a-b"` and parsing back yields version `"1.2.3-a"` and uid `"b"` — the
`lastIndexOf('-')` split hands the uid's first segment to the version — so
parse and format are not mutual inverses on all components. -/
theorem c9_roundtrip_counterexample :
    parseReference (formatReference none "foo" "1.2.3" "a-b") =
        Except.ok
          { fullName := "foo", name := "foo", scope := none, version := "1.2.3-a",
            uid := "b" } ∧
      ({ fullName := "foo", name := "foo", scope := none, version := "1.2.3-a",
          uid := "b" } : OpamPackageReference) ≠
        { fullName := "foo", name := "foo", scope := none, version := "1.2.3",
          uid := "a-b" } :=
  ⟨rfl, by decide⟩

/-- C9 (amended): resolved reference strings round-trip exactly through
parse and format — for every scope (optional, `/`-free), non-empty `@`-free
name, arbitrary version (it may itself contain `-`), and uid containing
neither `-` nor `.`, parsing `[@scope/]name@version-uid.tgz` returns exactly
those components: the uid is the final `-`-delimited segment before the
`.tgz` suffix and the version is everything between the first `@` after the
name and that segment. -/
theorem c9_parse_format_roundtrip (scope : Option String) (name version uid : String)
    (hscope : ∀ s, scope = some s → '/' ∉ s.data)
    (hname_ne : name.data ≠ [])
    (hname : '@' ∉ name.data)
    (huid_dash : '-' ∉ uid.data)
    (huid_dot : '.' ∉ uid.data) :
    parseReference (formatReference scope name version uid) =
      Except.ok
        { name := name
          fullName :=
            match scope with
            | some s => "@" ++ s ++ "/" ++ name
            | none => name
          scope := scope
          version := version
          uid := uid } := by
  cases scope with
  | none =>
    obtain ⟨nd⟩ := name
    obtain ⟨vd⟩ := version
    obtain ⟨ud⟩ := uid
    have hdata : (formatReference none ⟨nd⟩ ⟨vd⟩ ⟨ud⟩).data
        = nd ++ '@' :: (vd ++ '-' :: (ud ++ tgzChars)) := by
      show ("" : String).data ++ nd ++ "@".data ++ vd ++ "-".data ++ ud ++ ".tgz".data
          = nd ++ '@' :: (vd ++ '-' :: (ud ++ tgzChars))
      simp [tgzChars]
    cases hnd : nd with
    | nil => exact absurd hnd hname_ne
    | cons n0 ntl =>
      subst hnd
      have hn0 : n0 ≠ '@' := fun e => hname (e ▸ List.mem_cons_self n0 ntl)
      simp only [parseReference, hdata, List.cons_append]
      rw [if_neg hn0]
      exact parseReferenceTail_split none (n0 :: ntl) vd ud hname huid_dash huid_dot
  | some s =>
    obtain ⟨sd⟩ := s
    obtain ⟨nd⟩ := name
    obtain ⟨vd⟩ := version
    obtain ⟨ud⟩ := uid
    have hsc : '/' ∉ sd := hscope ⟨sd⟩ rfl
    have hdata : (formatReference (some ⟨sd⟩) ⟨nd⟩ ⟨vd⟩ ⟨ud⟩).data
        = '@' :: (sd ++ '/' :: (nd ++ '@' :: (vd ++ '-' :: (ud ++ tgzChars)))) := by
      show "@".data ++ sd ++ "/".data ++ nd ++ "@".data ++ vd ++ "-".data ++ ud
            ++ ".tgz".data
          = '@' :: (sd ++ '/' :: (nd ++ '@' :: (vd ++ '-' :: (ud ++ tgzChars))))
      simp [tgzChars]
    simp only [parseReference, hdata]
    rw [if_pos trivial]
    rw [chIndex_append '/' sd (nd ++ '@' :: (vd ++ '-' :: (ud ++ tgzChars))) hsc]
    simp only [List.take_left, drop_append_cons]
    rw [parseReferenceTail_split (some sd) nd vd ud hname huid_dash huid_dot]
    simp [OpamPackageReference.mk.injEq, String.ext_iff]

/-- C9, witness: the amended round-trip at the spec's scoped vector
`@scope/foo@1.2.3-abc.tgz`. -/
theorem c9_roundtrip_witness :
    parseReference (formatReference (some "scope") "foo" "1.2.3" "abc") =
      Except.ok
        { name := "foo"
          fullName := "@" ++ "scope" ++ "/" ++ "foo"
          scope := some "scope"
          version := "1.2.3"
          uid := "abc" } :=
  c9_parse_format_roundtrip (some "scope") "foo" "1.2.3" "abc"
    (fun s hs => by cases hs; decide) (by decide) (by decide) (by decide) (by decide)

/-! ## C5 and C6: the version-constraint solver -/

/-- Unfold one association-list lookup step. -/
theorem lookupAssoc_cons {α : Type} (x : String × α) (xs : List (String × α)) (k : String) :
    lookupAssoc (x :: xs) k = if x.1 = k then some x.2 else lookupAssoc xs k := by
  by_cases h : x.1 = k
  · simp [lookupAssoc, List.find?_cons, h]
  · simp [lookupAssoc, List.find?_cons, h]

/-- Masking changes nothing about whether a candidate parses. -/
theorem parseMask_isSome (hooks : SemverHooks) (col : ManifestCollection)
    (range v : String) : (parseMask hooks col range v).isSome = (hooks.parse v).isSome := by
  simp [parseMask]

/-- When every candidate parses, the `versions.map(...)` phase does not hit
the `invariant` throw. -/
theorem parseAll_isOk (hooks : SemverHooks) (col : ManifestCollection)
    (name range : String) :
    ∀ vs : List String, (∀ v ∈ vs, (hooks.parse v).isSome) →
      ∃ l, parseAll hooks col name range vs = Except.ok l := by
  intro vs
  induction vs with
  | nil => intro _; exact ⟨[], rfl⟩
  | cons v vt ih =>
    intro h
    have hv : (parseMask hooks col range v).isSome := by
      rw [parseMask_isSome]; exact h v (List.mem_cons_self v vt)
    obtain ⟨pv, hpv⟩ := Option.isSome_iff_exists.mp hv
    obtain ⟨l, hl⟩ := ih (fun u hu => h u (List.mem_cons_of_mem _ hu))
    exact ⟨pv :: l, by simp [parseAll, hpv, hl, Except.map]⟩

/-- The parsed candidate list contains exactly the masked parses of the
input versions. -/
theorem parseAll_mem (hooks : SemverHooks) (col : ManifestCollection)
    (name range : String) :
    ∀ (vs : List String) (l : List ParsedVersion),
      parseAll hooks col name range vs = Except.ok l →
      ∀ pv, (pv ∈ l ↔ ∃ v ∈ vs, parseMask hooks col range v = some pv) := by
  intro vs
  induction vs with
  | nil =>
    intro l hl pv
    have : l = ([] : List ParsedVersion) := by
      simpa [parseAll] using hl.symm
    subst this
    simp
  | cons v vt ih =>
    intro l hl pv
    rw [parseAll] at hl
    rcases hm : parseMask hooks col range v with _ | pv0
    · rw [hm] at hl; simp at hl
    · rw [hm] at hl
      rcases hrest : parseAll hooks col name range vt with e | l'
      · rw [hrest] at hl; simp [Except.map] at hl
      · rw [hrest] at hl
        have hll : l = pv0 :: l' := by simpa [Except.map] using hl.symm
        subst hll
        simp only [List.mem_cons]
        constructor
        · rintro (rfl | hmem)
          · exact ⟨v, Or.inl rfl, hm⟩
          · obtain ⟨u, hu, hpu⟩ := (ih l' hrest pv).mp hmem
            exact ⟨u, Or.inr hu, hpu⟩
        · rintro ⟨u, hu, hpu⟩
          rcases hu with rfl | hu
          · rw [hm] at hpu
            exact Or.inl (Option.some.inj hpu).symm
          · exact Or.inr ((ih l' hrest pv).mpr ⟨u, hu, hpu⟩)

/-- The selection loop is first-match search over the sorted candidates,
reporting the winner's raw version string. -/
theorem findVersionLoop_eq_find (hooks : SemverHooks) (range : String) :
    ∀ l : List ParsedVersion,
      findVersionLoop hooks range l =
        (l.find? (fun v => hooks.satisfies v range)).map
          (fun v => Solution.found v.raw) := by
  intro l
  induction l with
  | nil => rfl
  | cons v vt ih =>
    by_cases hs : hooks.satisfies v range
    · simp [findVersionLoop, List.find?_cons, hs]
    · simp [findVersionLoop, List.find?_cons, hs, ih]

/-- `findVersion` succeeds when every candidate parses, finds a solution iff
some candidate's masked parse satisfies the range (sorting only permutes the
candidates), and only ever reports `found`. -/
theorem findVersion_spec (hooks : SemverHooks) (col : ManifestCollection)
    (name range : String) (vs : List String)
    (hparse : ∀ v ∈ vs, (hooks.parse v).isSome) :
    ∃ r, findVersion hooks col name vs range = Except.ok r ∧
      (r.isSome ↔ ∃ v ∈ vs, ∃ pv, parseMask hooks col range v = some pv ∧
        hooks.satisfies pv range = true) ∧
      ∀ sol, r = some sol → ∃ ver, sol = Solution.found ver := by
  obtain ⟨l, hl⟩ := parseAll_isOk hooks col name range vs hparse
  refine ⟨findVersionLoop hooks range (l.insertionSort (opamDescending hooks)),
    by rw [findVersion, hl]; rfl, ?_, ?_⟩
  · rw [findVersionLoop_eq_find]
    rw [Option.isSome_map']
    rw [List.find?_isSome]
    constructor
    · rintro ⟨pv, hpv, hsat⟩
      have hpv' : pv ∈ l := (List.perm_insertionSort (opamDescending hooks) l).mem_iff.mp hpv
      obtain ⟨v, hv, hm⟩ := (parseAll_mem hooks col name range vs l hl pv).mp hpv'
      exact ⟨v, hv, pv, hm, hsat⟩
    · rintro ⟨v, hv, pv, hm, hsat⟩
      have hpv' : pv ∈ l := (parseAll_mem hooks col name range vs l hl pv).mpr ⟨v, hv, hm⟩
      exact ⟨pv, (List.perm_insertionSort (opamDescending hooks) l).mem_iff.mpr hpv', hsat⟩
  · intro sol hsol
    rw [findVersionLoop_eq_find] at hsol
    rcases hfind : (l.insertionSort (opamDescending hooks)).find?
        (fun v => hooks.satisfies v range) with _ | v
    · rw [hfind] at hsol; simp at hsol
    · rw [hfind] at hsol
      simp at hsol
      exact ⟨v.raw, hsol.symm⟩

/-- Membership in the toolchain-filtered candidate list means the version's
manifest is found and ocaml-eligible. -/
theorem mem_filtered_iff (hooks : SemverHooks) (col : ManifestCollection)
    (ov ver : String) :
    (ver ∈ (col.map Prod.fst).filter (ocamlFilterPred hooks ov col)) ↔
      ∃ m, lookupAssoc col ver = some m ∧ ocamlEligible hooks ov m = true := by
  rw [List.mem_filter]
  constructor
  · rintro ⟨hmem, hcond⟩
    rw [ocamlFilterPred] at hcond
    rcases hv : lookupAssoc col ver with _ | m
    · rw [hv] at hcond; simp at hcond
    · rw [hv] at hcond; exact ⟨m, rfl, hcond⟩
  · rintro ⟨m, hm, helig⟩
    refine ⟨lookupAssoc_some_mem hm, ?_⟩
    rw [ocamlFilterPred, hm]
    exact helig

/-- C5: for every manifest collection, every semver/EsyOpam collaborator and
every constraint whose toolchain (ocaml) version is present — provided every
candidate version parses, so the `invariant` throw is not hit —
`solveVersionConstraint` returns exactly one of three outcomes, classified
as: `found` when some toolchain-eligible candidate (one whose declared ocaml
peer-constraint, defaulting to `*` when absent, is satisfied by the
toolchain version) satisfies the requested range;
`no-version-found-for-ocaml-constraint` when no toolchain-eligible candidate
satisfies the range but some candidate in the unfiltered collection does;
and `no-version-found` when no candidate at all satisfies the range. -/
theorem c5_three_way_outcome (hooks : SemverHooks) (name : String)
    (col : ManifestCollection) (constraint : SolverConstraint) (ov : String)
    (hoc : constraint.ocamlVersion = some ov)
    (hparse : ∀ ver ∈ col.map Prod.fst, (hooks.parse ver).isSome) :
    ∃ s, solveVersionConstraint hooks name col constraint = Except.ok s ∧
      ((∃ ver, s = Solution.found ver) ↔
        (∃ ver m pv, lookupAssoc col ver = some m ∧
          ocamlEligible hooks ov m = true ∧
          parseMask hooks col constraint.versionRange ver = some pv ∧
          hooks.satisfies pv constraint.versionRange = true)) ∧
      (s = Solution.noVersionFoundForOCamlConstraint ↔
        (¬ (∃ ver m pv, lookupAssoc col ver = some m ∧
            ocamlEligible hooks ov m = true ∧
            parseMask hooks col constraint.versionRange ver = some pv ∧
            hooks.satisfies pv constraint.versionRange = true) ∧
          (∃ ver pv, ver ∈ col.map Prod.fst ∧
            parseMask hooks col constraint.versionRange ver = some pv ∧
            hooks.satisfies pv constraint.versionRange = true))) ∧
      (s = Solution.noVersionFound ↔
        (¬ (∃ ver m pv, lookupAssoc col ver = some m ∧
            ocamlEligible hooks ov m = true ∧
            parseMask hooks col constraint.versionRange ver = some pv ∧
            hooks.satisfies pv constraint.versionRange = true) ∧
          ¬ (∃ ver pv, ver ∈ col.map Prod.fst ∧
            parseMask hooks col constraint.versionRange ver = some pv ∧
            hooks.satisfies pv constraint.versionRange = true))) := by
  have hparseF : ∀ v ∈ (col.map Prod.fst).filter (ocamlFilterPred hooks ov col),
      (hooks.parse v).isSome :=
    fun v hv => hparse v (List.mem_of_mem_filter hv)
  obtain ⟨r1, hr1, hiff1, hshape1⟩ :=
    findVersion_spec hooks col name constraint.versionRange _ hparseF
  obtain ⟨r2, hr2, hiff2, hshape2⟩ :=
    findVersion_spec hooks col name constraint.versionRange (col.map Prod.fst) hparse
  have heligIff : (∃ v ∈ (col.map Prod.fst).filter (ocamlFilterPred hooks ov col),
        ∃ pv, parseMask hooks col constraint.versionRange v = some pv ∧
          hooks.satisfies pv constraint.versionRange = true) ↔
      (∃ ver m pv, lookupAssoc col ver = some m ∧
        ocamlEligible hooks ov m = true ∧
        parseMask hooks col constraint.versionRange ver = some pv ∧
        hooks.satisfies pv constraint.versionRange = true) := by
    constructor
    · rintro ⟨v, hv, pv, hm, hsat⟩
      obtain ⟨m, hlk, helig⟩ := (mem_filtered_iff hooks col ov v).mp hv
      exact ⟨v, m, pv, hlk, helig, hm, hsat⟩
    · rintro ⟨ver, m, pv, hlk, helig, hm, hsat⟩
      exact ⟨ver, (mem_filtered_iff hooks col ov ver).mpr ⟨m, hlk, helig⟩, pv, hm, hsat⟩
  simp only [solveVersionConstraint, hoc]
  rw [hr1]
  rcases hr1s : r1 with _ | sol
  · rw [hr1s] at hiff1
    have hnelig : ¬ _ := fun h => by
      have := hiff1.mpr (heligIff.mpr h)
      simp at this
    rw [hr2]
    rcases hr2s : r2 with _ | sol2
    · rw [hr2s] at hiff2
      have hnall : ¬ (∃ ver pv, ver ∈ col.map Prod.fst ∧
          parseMask hooks col constraint.versionRange ver = some pv ∧
          hooks.satisfies pv constraint.versionRange = true) := fun h => by
        obtain ⟨ver, pv, hv, hm, hsat⟩ := h
        have := hiff2.mpr ⟨ver, hv, pv, hm, hsat⟩
        simp at this
      refine ⟨Solution.noVersionFound, rfl, ?_, ?_, ?_⟩
      · constructor
        · rintro ⟨ver, h⟩; simp at h
        · intro h; exact absurd h hnelig
      · constructor
        · intro h; simp at h
        · rintro ⟨_, hall⟩; exact absurd hall hnall
      · exact ⟨fun _ => ⟨hnelig, hnall⟩, fun _ => rfl⟩
    · rw [hr2s] at hiff2
      have hall : ∃ ver pv, ver ∈ col.map Prod.fst ∧
          parseMask hooks col constraint.versionRange ver = some pv ∧
          hooks.satisfies pv constraint.versionRange = true := by
        obtain ⟨ver, hv, pv, hm, hsat⟩ := hiff2.mp (by simp)
        exact ⟨ver, pv, hv, hm, hsat⟩
      refine ⟨Solution.noVersionFoundForOCamlConstraint, rfl, ?_, ?_, ?_⟩
      · constructor
        · rintro ⟨ver, h⟩; simp at h
        · intro h; exact absurd h hnelig
      · exact ⟨fun _ => ⟨hnelig, hall⟩, fun _ => rfl⟩
      · constructor
        · intro h; simp at h
        · rintro ⟨_, hnall⟩; exact absurd hall hnall
  · rw [hr1s] at hiff1
    have helig := heligIff.mp (hiff1.mp (by simp))
    obtain ⟨ver0, hsol⟩ := hshape1 sol (by rw [hr1s])
    refine ⟨sol, rfl, ?_, ?_, ?_⟩
    · exact ⟨fun _ => helig, fun _ => ⟨ver0, hsol⟩⟩
    · constructor
      · intro h; rw [hsol] at h; simp at h
      · rintro ⟨hne, _⟩; exact absurd helig hne
    · constructor
      · intro h; rw [hsol] at h; simp at h
      · rintro ⟨hne, _⟩; exact absurd helig hne

/-- C5, witness: the three-way classification at the spec's
toolchain-narrowing vector — every candidate requires a 1.x ocaml toolchain,
the installed toolchain is 2.0.0, the range is `*`, and the outcome is the
toolchain-specific not-found. -/
theorem c5_three_way_witness :
    ∃ s, solveVersionConstraint specSemverHooks "pkg" toolchainCatalog
        { versionRange := "*", ocamlVersion := some "2.0.0" } = Except.ok s ∧
      s = Solution.noVersionFoundForOCamlConstraint := by
  obtain ⟨s, hs, _⟩ := c5_three_way_outcome specSemverHooks "pkg" toolchainCatalog
    { versionRange := "*", ocamlVersion := some "2.0.0" } "2.0.0" rfl (by decide)
  refine ⟨s, hs, ?_⟩
  have h2 : solveVersionConstraint specSemverHooks "pkg" toolchainCatalog
      { versionRange := "*", ocamlVersion := some "2.0.0" } =
      Except.ok Solution.noVersionFoundForOCamlConstraint := rfl
  rw [h2] at hs
  exact (Except.ok.inj hs).symm

/-- C6: in `solveVersionConstraint`'s candidate selection, (i) when the
requested range does not itself reference a pre-release, every candidate's
pre-release tag is masked off before range matching while the original raw
version string is retained for the result; (ii) candidates are sorted in
descending opam-ecosystem order (`EsyOpam.versionCompare` on the attached
opam version) and the first range-satisfying candidate in that order is
returned; and (iii) in particular, for the catalog
`{1.0.0, 1.1.0, 2.0.0-beta1}` with no toolchain constraint and requested
range `*`, the result is `found 2.0.0-beta1`. -/
theorem c6_mask_sort_first_match :
    (∀ (hooks : SemverHooks) (col : ManifestCollection) (range ver : String)
        (pv : ParsedVersion),
      hooks.rangeHasPrerelease range = false →
      parseMask hooks col range ver = some pv →
      ∃ v0, hooks.parse ver = some v0 ∧ pv.raw = v0.raw ∧ pv.prerelease = [] ∧
        pv.prereleaseHidden = v0.prerelease) ∧
      (∀ (hooks : SemverHooks) (col : ManifestCollection) (name range : String)
          (vs : List String) (l : List ParsedVersion),
        parseAll hooks col name range vs = Except.ok l →
        findVersion hooks col name vs range =
          Except.ok (((l.insertionSort (opamDescending hooks)).find?
              (fun v => hooks.satisfies v range)).map
            (fun v => Solution.found v.raw))) ∧
      solveVersionConstraint specSemverHooks "pkg" basicCatalog
          { versionRange := "*", ocamlVersion := none } =
        Except.ok (Solution.found "2.0.0-beta1") := by
  refine ⟨?_, ?_, rfl⟩
  · intro hooks col range ver pv hr hm
    rw [parseMask] at hm
    rcases hp : hooks.parse ver with _ | v0
    · rw [hp] at hm; simp at hm
    · rw [hp] at hm
      simp only [Option.map_some', Option.some.injEq] at hm
      rw [hr] at hm
      simp only [if_neg Bool.false_ne_true] at hm
      subst hm
      exact ⟨v0, rfl, rfl, rfl, rfl⟩
  · intro hooks col name range vs l hl
    rw [findVersion, hl]
    simp only [Except.map]
    rw [findVersionLoop_eq_find]

/-- C6, witness: the masking clause at the pre-release candidate
`2.0.0-beta1` under range `*`, and the first-match clause at a concrete
one-candidate parse. -/
theorem c6_mask_witness :
    (specSemverHooks.rangeHasPrerelease "*" = false ∧
      ∃ v0, specSemverHooks.parse "2.0.0-beta1" = some v0 ∧
        maskedBeta.raw = v0.raw ∧ maskedBeta.prerelease = [] ∧
        maskedBeta.prereleaseHidden = v0.prerelease) ∧
      findVersion specSemverHooks basicCatalog "pkg" ["1.0.0"] "*" =
        Except.ok ((([parsedOne].insertionSort
              (opamDescending specSemverHooks)).find?
            (fun v => specSemverHooks.satisfies v "*")).map
          (fun v => Solution.found v.raw)) :=
  ⟨⟨rfl,
    c6_mask_sort_first_match.1 specSemverHooks basicCatalog "*" "2.0.0-beta1"
      maskedBeta rfl rfl⟩,
    c6_mask_sort_first_match.2.1 specSemverHooks basicCatalog "pkg" "*" ["1.0.0"]
      [parsedOne] rfl⟩

/-! ## C2 and C3: lockfile build - dedup sharing, backfill, determinism -/

/-- A binding found in the front part survives appending. -/
theorem lookupAssoc_append_of_some {α : Type} {l : List (String × α)} (l' : List (String × α))
    {k : String} {v : α} (h : lookupAssoc l k = some v) :
    lookupAssoc (l ++ l') k = some v := by
  induction l with
  | nil => simp [lookupAssoc] at h
  | cons x xs ih =>
    rw [lookupAssoc_cons] at h
    rw [List.cons_append, lookupAssoc_cons]
    by_cases hx : x.1 = k
    · rw [if_pos hx] at h ⊢; exact h
    · rw [if_neg hx] at h ⊢; exact ih h

/-- A key absent from the front part defers to the appended part. -/
theorem lookupAssoc_append_of_none {α : Type} {l : List (String × α)} (l' : List (String × α))
    {k : String} (h : lookupAssoc l k = none) :
    lookupAssoc (l ++ l') k = lookupAssoc l' k := by
  induction l with
  | nil => simp
  | cons x xs ih =>
    rw [lookupAssoc_cons] at h
    rw [List.cons_append, lookupAssoc_cons]
    by_cases hx : x.1 = k
    · rw [if_pos hx] at h; exact absurd h (by simp)
    · rw [if_neg hx] at h ⊢; exact ih h

/-- A hit after appending one binding is either an old hit or that binding. -/
theorem lookupAssoc_append_singleton_cases {α : Type} {l : List (String × α)}
    {q k : String} {i v : α} (h : lookupAssoc (l ++ [(q, i)]) k = some v) :
    lookupAssoc l k = some v ∨ (lookupAssoc l k = none ∧ k = q ∧ v = i) := by
  rcases hl : lookupAssoc l k with _ | v0
  · right
    rw [lookupAssoc_append_of_none _ hl, lookupAssoc_cons] at h
    by_cases hq : q = k
    · rw [if_pos hq] at h
      exact ⟨rfl, hq.symm, (Option.some.inj h).symm⟩
    · rw [if_neg hq] at h
      simp [lookupAssoc] at h
  · left
    rw [lookupAssoc_append_of_some _ hl] at h
    exact hl ▸ h

/-- Every key of the map has a binding. -/
theorem mem_keys_lookupAssoc {α : Type} (l : List (String × α)) (k : String)
    (h : k ∈ l.map Prod.fst) : ∃ v, lookupAssoc l k = some v := by
  induction l with
  | nil => simp at h
  | cons x xs ih =>
    rw [lookupAssoc_cons]
    by_cases hx : x.1 = k
    · exact ⟨x.2, by rw [if_pos hx]⟩
    · rw [if_neg hx]
      rcases List.mem_map.mp h with ⟨kv, hkv, hk⟩
      rcases List.mem_cons.mp hkv with rfl | hkv
      · exact absurd hk hx
      · exact ih (List.mem_map.mpr ⟨kv, hkv, hk⟩)

/-- A pattern with no package record leaves the state unchanged (the JS
would throw its `invariant`; such patterns do not arise from a genuine map). -/
theorem buildStep_of_none (f : String → Option ResolvedPackage) (st : BuildState)
    (q : String) (hq : f q = none) : buildStep f st q = st := by
  simp [buildStep, hq]

/-- A package with no remote identity key gets a fresh canonical entry and
is not registered in `seen`. -/
theorem buildStep_of_fresh_nokey (f : String → Option ResolvedPackage) (st : BuildState)
    (q : String) (pkg : ResolvedPackage) (hq : f q = some pkg)
    (hko : keyForRemote pkg.remote = none) :
    buildStep f st q =
      { entries := st.entries.push (implodeEntry q (entryOfPackage pkg))
        lockfile := st.lockfile ++ [(q, st.entries.size)]
        seen := st.seen } := by
  simp [buildStep, hq, hko]

/-- A package whose identity key is unseen gets a fresh canonical entry and
registers its key in `seen`. -/
theorem buildStep_of_fresh_key (f : String → Option ResolvedPackage) (st : BuildState)
    (q k : String) (pkg : ResolvedPackage) (hq : f q = some pkg)
    (hko : keyForRemote pkg.remote = some k) (hs : lookupAssoc st.seen k = none) :
    buildStep f st q =
      { entries := st.entries.push (implodeEntry q (entryOfPackage pkg))
        lockfile := st.lockfile ++ [(q, st.entries.size)]
        seen := st.seen ++ [(k, st.entries.size)] } := by
  simp [buildStep, hq, hko, hs]

/-- A package whose identity key was seen only aliases the canonical entry,
backfilling its name when it is falsy and the inferred name disagrees. -/
theorem buildStep_of_seen (f : String → Option ResolvedPackage) (st : BuildState)
    (q k : String) (i : Nat) (pkg : ResolvedPackage) (hq : f q = some pkg)
    (hko : keyForRemote pkg.remote = some k) (hs : lookupAssoc st.seen k = some i) :
    buildStep f st q =
      { st with
        lockfile := st.lockfile ++ [(q, i)]
        entries :=
          if isFalsyStr (st.entries.getD i default).name ∧ getName q ≠ pkg.name then
            st.entries.setD i { st.entries.getD i default with name := some pkg.name }
          else st.entries } := by
  simp [buildStep, hq, hko, hs]

/-- Whatever the branch, the processed pattern is appended to the lockfile. -/
theorem buildStep_lockfile_append (f : String → Option ResolvedPackage) (st : BuildState)
    (q : String) (pkg : ResolvedPackage) (hq : f q = some pkg) :
    ∃ i, (buildStep f st q).lockfile = st.lockfile ++ [(q, i)] := by
  rcases hko : keyForRemote pkg.remote with _ | k
  · rw [buildStep_of_fresh_nokey f st q pkg hq hko]
    exact ⟨st.entries.size, rfl⟩
  · rcases hs : lookupAssoc st.seen k with _ | i
    · rw [buildStep_of_fresh_key f st q k pkg hq hko hs]
      exact ⟨st.entries.size, rfl⟩
    · rw [buildStep_of_seen f st q k i pkg hq hko hs]
      exact ⟨i, rfl⟩

/-- One loop iteration preserves the lockfile/`seen` linkage invariant. -/
theorem seenLinked_buildStep (f : String → Option ResolvedPackage) (st : BuildState)
    (q : String) (hinv : SeenLinked f st) : SeenLinked f (buildStep f st q) := by
  intro p i hlk g k hg hk
  rcases hq : f q with _ | pkg
  · rw [buildStep_of_none f st q hq] at hlk ⊢
    exact hinv p i hlk g k hg hk
  · rcases hko : keyForRemote pkg.remote with _ | kq
    · rw [buildStep_of_fresh_nokey f st q pkg hq hko] at hlk ⊢
      rcases lookupAssoc_append_singleton_cases hlk with hold | ⟨hnone, rfl, rfl⟩
      · exact hinv p i hold g k hg hk
      · have hgq : pkg = g := Option.some.inj (hq ▸ hg)
        subst hgq
        rw [hko] at hk
        exact absurd hk (by simp)
    · rcases hs : lookupAssoc st.seen kq with _ | i0
      · rw [buildStep_of_fresh_key f st q kq pkg hq hko hs] at hlk ⊢
        rcases lookupAssoc_append_singleton_cases hlk with hold | ⟨hnone, rfl, rfl⟩
        · exact lookupAssoc_append_of_some _ (hinv p i hold g k hg hk)
        · have hgq : pkg = g := Option.some.inj (hq ▸ hg)
          subst hgq
          rw [hko] at hk
          have hkk : kq = k := Option.some.inj hk
          subst hkk
          rw [lookupAssoc_append_of_none _ hs, lookupAssoc_cons]
          simp
      · rw [buildStep_of_seen f st q kq i0 pkg hq hko hs] at hlk ⊢
        rcases lookupAssoc_append_singleton_cases hlk with hold | ⟨hnone, rfl, rfl⟩
        · exact hinv p i hold g k hg hk
        · have hgq : pkg = g := Option.some.inj (hq ▸ hg)
          subst hgq
          rw [hko] at hk
          have hkk : kq = k := Option.some.inj hk
          subst hkk
          exact hs

/-- Lockfile bindings persist across one loop iteration (first hit wins and
the lockfile only grows at the back). -/
theorem buildStep_lockfile_mono (f : String → Option ResolvedPackage) (st : BuildState)
    (q p : String) (i : Nat) (h : lookupAssoc st.lockfile p = some i) :
    lookupAssoc (buildStep f st q).lockfile p = some i := by
  rcases hq : f q with _ | pkg
  · rw [buildStep_of_none f st q hq]; exact h
  · obtain ⟨j, hj⟩ := buildStep_lockfile_append f st q pkg hq
    rw [hj]
    exact lookupAssoc_append_of_some _ h

/-- The linkage invariant holds after folding the loop over any patterns. -/
theorem foldl_seenLinked (f : String → Option ResolvedPackage) :
    ∀ (ks : List String) (st : BuildState), SeenLinked f st →
      SeenLinked f (ks.foldl (buildStep f) st) := by
  intro ks
  induction ks with
  | nil => intro st h; exact h
  | cons q kt ih =>
    intro st h
    rw [List.foldl_cons]
    exact ih (buildStep f st q) (seenLinked_buildStep f st q h)

/-- Lockfile bindings persist across the whole fold. -/
theorem foldl_lockfile_mono (f : String → Option ResolvedPackage) :
    ∀ (ks : List String) (st : BuildState) (p : String) (i : Nat),
      lookupAssoc st.lockfile p = some i →
      lookupAssoc ((ks.foldl (buildStep f) st).lockfile) p = some i := by
  intro ks
  induction ks with
  | nil => intro st p i h; exact h
  | cons q kt ih =>
    intro st p i h
    rw [List.foldl_cons]
    exact ih (buildStep f st q) p i (buildStep_lockfile_mono f st q p i h)

/-- Every processed pattern with a package record ends up in the lockfile. -/
theorem foldl_mem_lockfile (f : String → Option ResolvedPackage) :
    ∀ (ks : List String) (st : BuildState) (p : String) (pkg : ResolvedPackage),
      p ∈ ks → f p = some pkg →
      ∃ i, lookupAssoc ((ks.foldl (buildStep f) st).lockfile) p = some i := by
  intro ks
  induction ks with
  | nil => intro st p pkg h; simp at h
  | cons q kt ih =>
    intro st p pkg hmem hp
    rw [List.foldl_cons]
    rcases List.mem_cons.mp hmem with rfl | hmem
    · obtain ⟨j, hj⟩ := buildStep_lockfile_append f st p pkg hp
      rcases hl : lookupAssoc st.lockfile p with _ | i0
      · have hnew : lookupAssoc ((buildStep f st p).lockfile) p = some j := by
          rw [hj, lookupAssoc_append_of_none _ hl, lookupAssoc_cons]
          simp
        exact ⟨j, foldl_lockfile_mono f kt _ p j hnew⟩
      · have holdv : lookupAssoc ((buildStep f st p).lockfile) p = some i0 := by
          rw [hj]
          exact lookupAssoc_append_of_some _ hl
        exact ⟨i0, foldl_lockfile_mono f kt _ p i0 holdv⟩
    · exact ih (buildStep f st q) p pkg hmem hp

/-- With duplicate-free keys, lookup is a function of the binding multiset
only: permuting the map does not change any lookup. -/
theorem lookupAssoc_perm {α : Type} :
    ∀ {l1 l2 : List (String × α)}, l1.Perm l2 → (l1.map Prod.fst).Nodup →
      ∀ k, lookupAssoc l1 k = lookupAssoc l2 k := by
  intro l1 l2 hperm
  induction hperm with
  | nil => intro _ k; rfl
  | @cons x l₁ l₂ hp ih =>
    intro hn k
    rw [lookupAssoc_cons, lookupAssoc_cons]
    by_cases hx : x.1 = k
    · rw [if_pos hx, if_pos hx]
    · rw [if_neg hx, if_neg hx]
      have hn2 : (x.1 :: List.map Prod.fst l₁).Nodup := by simpa using hn
      exact ih hn2.of_cons k
  | swap x y l =>
    intro hn k
    have hn2 : (y.1 :: x.1 :: List.map Prod.fst l).Nodup := by simpa using hn
    have hxy : y.1 ≠ x.1 := by
      intro e
      exact (List.nodup_cons.mp hn2).1 (e ▸ List.mem_cons_self x.1 (List.map Prod.fst l))
    rw [lookupAssoc_cons, lookupAssoc_cons, lookupAssoc_cons, lookupAssoc_cons]
    by_cases hky : y.1 = k
    · rw [if_pos hky]
      have hkx : ¬ x.1 = k := fun e => hxy (hky.trans e.symm)
      rw [if_neg hkx, if_pos hky]
    · rw [if_neg hky]
      by_cases hkx : x.1 = k
      · rw [if_pos hkx, if_pos hkx]
      · rw [if_neg hkx, if_neg hkx, if_neg hky]
  | trans h12 h23 ih12 ih23 =>
    intro hn k
    rw [ih12 hn k]
    exact ih23 ((h12.map Prod.fst).nodup hn) k

/-- Sorting is a function of the key multiset: permuted inputs sort to the
same list. -/
theorem sortAlpha_perm_eq (k1 k2 : List String) (hp : k1.Perm k2) :
    sortAlpha k1 = sortAlpha k2 :=
  @List.eq_of_perm_of_sorted String (· ≤ ·) _ _ _
    (((List.perm_insertionSort _ k1).trans hp).trans
      (List.perm_insertionSort _ k2).symm)
    (List.sorted_insertionSort _ k1)
    (List.sorted_insertionSort _ k2)

/-- One iteration appends exactly its pattern to the lockfile key sequence. -/
theorem buildStep_lockfile_map (f : String → Option ResolvedPackage) (st : BuildState)
    (q : String) (pkg : ResolvedPackage) (hq : f q = some pkg) :
    (buildStep f st q).lockfile.map Prod.fst = st.lockfile.map Prod.fst ++ [q] := by
  obtain ⟨i, hi⟩ := buildStep_lockfile_append f st q pkg hq
  rw [hi]
  simp

/-- The lockfile key sequence after the fold is the processed pattern list,
in processing order. -/
theorem foldl_lockfile_keys (f : String → Option ResolvedPackage) :
    ∀ (ks : List String) (st : BuildState),
      (∀ q ∈ ks, ∃ pkg, f q = some pkg) →
      ((ks.foldl (buildStep f) st).lockfile).map Prod.fst =
        st.lockfile.map Prod.fst ++ ks := by
  intro ks
  induction ks with
  | nil => intro st _; simp
  | cons q kt ih =>
    intro st h
    obtain ⟨pkg, hpkg⟩ := h q (List.mem_cons_self q kt)
    rw [List.foldl_cons, ih (buildStep f st q) (fun u hu => h u (List.mem_cons_of_mem _ hu)),
      buildStep_lockfile_map f st q pkg hpkg]
    simp

/-- Two patterns whose packages share a remote identity key are mapped to
the same arena index, i.e. to one shared entry object. -/
theorem getLockfile_shares_entry (patterns : List (String × ResolvedPackage)) (p1 p2 : String)
    (g1 g2 : ResolvedPackage) (k : String)
    (h1 : lookupAssoc patterns p1 = some g1) (h2 : lookupAssoc patterns p2 = some g2)
    (hk1 : keyForRemote g1.remote = some k) (hk2 : keyForRemote g2.remote = some k) :
    ∃ i, lookupAssoc (getLockfile patterns).lockfile p1 = some i ∧
      lookupAssoc (getLockfile patterns).lockfile p2 = some i := by
  have hmem1 : p1 ∈ sortAlpha (patterns.map Prod.fst) :=
    (List.perm_insertionSort _ _).mem_iff.mpr (lookupAssoc_some_mem h1)
  have hmem2 : p2 ∈ sortAlpha (patterns.map Prod.fst) :=
    (List.perm_insertionSort _ _).mem_iff.mpr (lookupAssoc_some_mem h2)
  rw [getLockfile]
  obtain ⟨i1, hi1⟩ := foldl_mem_lockfile (lookupAssoc patterns)
    (sortAlpha (patterns.map Prod.fst)) { entries := #[], lockfile := [], seen := [] }
    p1 g1 hmem1 h1
  obtain ⟨i2, hi2⟩ := foldl_mem_lockfile (lookupAssoc patterns)
    (sortAlpha (patterns.map Prod.fst)) { entries := #[], lockfile := [], seen := [] }
    p2 g2 hmem2 h2
  have hinv := foldl_seenLinked (lookupAssoc patterns)
    (sortAlpha (patterns.map Prod.fst)) { entries := #[], lockfile := [], seen := [] }
    (by intro p i h _ _ _ _; simp [lookupAssoc] at h)
  have e1 := hinv p1 i1 hi1 g1 k h1 hk1
  have e2 := hinv p2 i2 hi2 g2 k h2 hk2
  have : i1 = i2 := Option.some.inj (e1.symm.trans e2)
  exact ⟨i1, hi1, this ▸ hi2⟩

/-- In the two-binding scenario with a shared identity key, a dropped name
and a later alias with a differing inferred name, the canonical entry is
shared and its name backfilled to the package's explicit name. -/
theorem getLockfile_backfills_name (p1 p2 : String) (g1 g2 : ResolvedPackage) (k : String)
    (hlt : p1 < p2)
    (hk1 : keyForRemote g1.remote = some k) (hk2 : keyForRemote g2.remote = some k)
    (hname1 : g1.name = getName p1)
    (hdiff : getName p2 ≠ g2.name) :
    (getLockfile [(p1, g1), (p2, g2)]).lockfile = [(p1, 0), (p2, 0)] ∧
      (getLockfile [(p1, g1), (p2, g2)]).entries =
        #[{ implodeEntry p1 (entryOfPackage g1) with name := some g2.name }] := by
  have hne : p1 ≠ p2 := ne_of_lt hlt
  have hf1 : lookupAssoc [(p1, g1), (p2, g2)] p1 = some g1 := by
    rw [lookupAssoc_cons]
    simp
  have hf2 : lookupAssoc [(p1, g1), (p2, g2)] p2 = some g2 := by
    rw [lookupAssoc_cons, if_neg hne, lookupAssoc_cons]
    simp
  have hsort : sortAlpha (List.map Prod.fst [(p1, g1), (p2, g2)]) = [p1, p2] := by
    simp [sortAlpha, List.insertionSort, List.orderedInsert, le_of_lt hlt]
  have h0 : getLockfile [(p1, g1), (p2, g2)] =
      buildStep (lookupAssoc [(p1, g1), (p2, g2)])
        (buildStep (lookupAssoc [(p1, g1), (p2, g2)])
          { entries := #[], lockfile := [], seen := [] } p1) p2 := by
    rw [getLockfile, hsort, List.foldl_cons, List.foldl_cons, List.foldl_nil]
  have h1 : buildStep (lookupAssoc [(p1, g1), (p2, g2)])
      { entries := #[], lockfile := [], seen := [] } p1 =
      ({ entries := #[implodeEntry p1 (entryOfPackage g1)], lockfile := [(p1, 0)], seen := [(k, 0)] } : BuildState) := by
    rw [buildStep_of_fresh_key (lookupAssoc [(p1, g1), (p2, g2)])
      { entries := #[], lockfile := [], seen := [] } p1 k g1 hf1 hk1 rfl]
    rfl
  have hobjname : (implodeEntry p1 (entryOfPackage g1)).name = none := by
    simp [implodeEntry, entryOfPackage, hname1]
  have h2 : buildStep (lookupAssoc [(p1, g1), (p2, g2)])
      ({ entries := #[implodeEntry p1 (entryOfPackage g1)], lockfile := [(p1, 0)], seen := [(k, 0)] } : BuildState) p2 =
      ({ entries := #[{ implodeEntry p1 (entryOfPackage g1) with name := some g2.name }], lockfile := [(p1, 0), (p2, 0)], seen := [(k, 0)] } : BuildState) := by
    rw [buildStep_of_seen (lookupAssoc [(p1, g1), (p2, g2)])
      ({ entries := #[implodeEntry p1 (entryOfPackage g1)], lockfile := [(p1, 0)], seen := [(k, 0)] } : BuildState) p2 k 0 g2 hf2 hk2
      (by rw [lookupAssoc_cons]; simp)]
    have hgetd : ({ entries := #[implodeEntry p1 (entryOfPackage g1)], lockfile := [(p1, 0)], seen := [(k, 0)] } : BuildState).entries.getD 0 default =
        implodeEntry p1 (entryOfPackage g1) := rfl
    rw [hgetd]
    rw [if_pos ⟨by rw [hobjname]; rfl, hdiff⟩]
    rfl
  rw [h0, h1, h2]
  exact ⟨rfl, rfl⟩

/-- C2: for every resolved-package map given to `getLockfile` (build), if two
patterns' package records have remote descriptors with the same remote
identity key (the `resolved` field if present, else `reference#hash`), then
both patterns are mapped to the same entry object (the same arena slot —
shared, not copied); and, in the two-binding scenario where the canonical
entry's name was omitted because it matched the first pattern's inferred
name while the later aliasing pattern's inferred name differs from the
package's name, the shared entry's name field is backfilled to the
package's explicit name. -/
theorem c2_dedup_identity :
    (∀ (patterns : List (String × ResolvedPackage)) (p1 p2 : String)
        (g1 g2 : ResolvedPackage) (k : String),
      lookupAssoc patterns p1 = some g1 → lookupAssoc patterns p2 = some g2 →
      keyForRemote g1.remote = some k → keyForRemote g2.remote = some k →
      ∃ i, lookupAssoc (getLockfile patterns).lockfile p1 = some i ∧
        lookupAssoc (getLockfile patterns).lockfile p2 = some i) ∧
      ∀ (p1 p2 : String) (g1 g2 : ResolvedPackage) (k : String),
        p1 < p2 →
        keyForRemote g1.remote = some k → keyForRemote g2.remote = some k →
        g1.name = getName p1 → getName p2 ≠ g2.name →
        (getLockfile [(p1, g1), (p2, g2)]).lockfile = [(p1, 0), (p2, 0)] ∧
          (getLockfile [(p1, g1), (p2, g2)]).entries =
            #[{ implodeEntry p1 (entryOfPackage g1) with name := some g2.name }] :=
  ⟨getLockfile_shares_entry, getLockfile_backfills_name⟩

/-- C2, witness: the pattern `x@^1.0.0` and the aliasing pattern
`z-alias@^1.0.0` resolve to one package record with one resolved URL; both
share arena slot 0 and the shared entry's name is backfilled to `x`. -/
theorem c2_dedup_witness :
    (∃ i,
      lookupAssoc
          (getLockfile [("x@^1.0.0", pkgX), ("z-alias@^1.0.0", pkgX)]).lockfile
          "x@^1.0.0" = some i ∧
        lookupAssoc
          (getLockfile [("x@^1.0.0", pkgX), ("z-alias@^1.0.0", pkgX)]).lockfile
          "z-alias@^1.0.0" = some i) ∧
      (getLockfile [("x@^1.0.0", pkgX), ("z-alias@^1.0.0", pkgX)]).lockfile =
          [("x@^1.0.0", 0), ("z-alias@^1.0.0", 0)] ∧
        (getLockfile [("x@^1.0.0", pkgX), ("z-alias@^1.0.0", pkgX)]).entries =
          #[{ implodeEntry "x@^1.0.0" (entryOfPackage pkgX) with
              name := some pkgX.name }] :=
  ⟨c2_dedup_identity.1 [("x@^1.0.0", pkgX), ("z-alias@^1.0.0", pkgX)]
      "x@^1.0.0" "z-alias@^1.0.0" pkgX pkgX
      "https://registry.example/x-1.0.0.tgz" (by decide) (by decide)
      (by decide) (by decide),
    c2_dedup_identity.2 "x@^1.0.0" "z-alias@^1.0.0" pkgX pkgX
      "https://registry.example/x-1.0.0.tgz"
      (by rw [String.lt_iff_toList_lt]; decide) (by decide)
      (by decide) (by decide) (by decide)⟩

/-- C3: `getLockfile` (build) is order-independent — for every two
resolved-package maps containing the same pattern-to-package bindings (with
duplicate-free pattern keys) in different insertion orders, the produced
lockfile state is identical, including the order of its keys; and the
produced key order is the lexicographically sorted pattern list, so among
patterns sharing a remote identity key the lexicographically first one owns
the canonical entry regardless of resolution order. -/
theorem c3_build_order_independent (l1 l2 : List (String × ResolvedPackage)) (hperm : l1.Perm l2)
    (hnodup : (l1.map Prod.fst).Nodup) :
    getLockfile l1 = getLockfile l2 ∧
      (getLockfile l1).lockfile.map Prod.fst = sortAlpha (l1.map Prod.fst) := by
  constructor
  · have hfun : lookupAssoc l1 = lookupAssoc l2 :=
      funext (fun kk => lookupAssoc_perm hperm hnodup kk)
    have hkeys : sortAlpha (l1.map Prod.fst) = sortAlpha (l2.map Prod.fst) :=
      sortAlpha_perm_eq _ _ (hperm.map _)
    rw [getLockfile, getLockfile, hkeys, hfun]
  · rw [getLockfile]
    rw [foldl_lockfile_keys (lookupAssoc l1) (sortAlpha (l1.map Prod.fst))
      { entries := #[], lockfile := [], seen := [] }
      (fun q hq => mem_keys_lookupAssoc l1 q
        ((List.perm_insertionSort _ _).mem_iff.mp hq))]
    simp

/-- C3, witness: order independence and sorted output keys at a concrete
two-binding map inserted in both orders. -/
theorem c3_order_witness :
    getLockfile [("a@1.0.0", pkgX), ("b@1.0.0", pkgX)] =
        getLockfile [("b@1.0.0", pkgX), ("a@1.0.0", pkgX)] ∧
      (getLockfile [("a@1.0.0", pkgX), ("b@1.0.0", pkgX)]).lockfile.map Prod.fst =
        sortAlpha ([("a@1.0.0", pkgX), ("b@1.0.0", pkgX)].map Prod.fst) :=
  c3_build_order_independent [("a@1.0.0", pkgX), ("b@1.0.0", pkgX)]
    [("b@1.0.0", pkgX), ("a@1.0.0", pkgX)] (by decide) (by decide)

/-! ## C7: lock entries whose resolved identity does not parse -/

/-- C7, counterexample: for a lockfile entry whose `resolved` field is
absent, `isLockfileEntryOutdated` returns `false` — the entry is treated as
*not* outdated (and hence trusted) — contradicting the claim that such an
entry is unconditionally treated as outdated. -/
theorem c7_counterexample :
    isLockfileEntryOutdated specSemverHooks (some "4.06.0")
        { entryWithPeer with resolved := none } "*" true =
      Except.ok false := by
  rfl

/-- C7 (amended): for every lockfile entry whose `resolved` field is absent
or cannot be parsed back into a structured package reference,
`isLockfileEntryOutdated` returns `false` — the entry is unconditionally
treated as *not* outdated — regardless of the requested range and toolchain
version (and of the semver collaborator). -/
theorem c7_invalid_reference_not_outdated (hooks : SemverHooks)
    (resolverOcamlVersion : Option String) (lockfileEntry : LockEntry)
    (versionRange : String) (hasVersion : Bool)
    (h : isValidReference lockfileEntry.resolved = false) :
    isLockfileEntryOutdated hooks resolverOcamlVersion lockfileEntry
        versionRange hasVersion =
      Except.ok false := by
  simp [isLockfileEntryOutdated, h]

/-- C7, witness: the amended theorem at a concrete entry with a malformed
(non-reference) resolved string. -/
theorem c7_witness :
    isValidReference ({ entryWithPeer with resolved := some "not a reference" } :
        LockEntry).resolved = false ∧
      isLockfileEntryOutdated specSemverHooks none
          { entryWithPeer with resolved := some "not a reference" } ">=1.0.0" false =
        Except.ok false :=
  ⟨by decide,
    c7_invalid_reference_not_outdated specSemverHooks none
      { entryWithPeer with resolved := some "not a reference" } ">=1.0.0" false
      (by decide)⟩

/-! ## C8: checksum mismatch aborts the fetch before unpacking -/

/-- C8: for every fetch whose manifest declares a download URL and an
expected checksum, if the MD5 digest of the downloaded bytes differs from
the expected checksum then the fetch fails with the integrity
(`SecurityError`) error, exactly one download was attempted (no retry), and
no archive unpacking into the destination occurs. -/
theorem c8_checksum_mismatch_aborts (env : FetchEnv)
    (manifestFor : String → String → Option FetchManifest)
    (resolution : OpamPackageReference) (manifest : FetchManifest)
    (url expected : String)
    (href : parseReference env.reference = Except.ok resolution)
    (hman : manifestFor resolution.name resolution.version = some manifest)
    (hurl : manifest.url = some url)
    (hsum : manifest.checksum = some expected)
    (hmismatch : env.md5 (env.download url) ≠ expected) :
    (∃ msg, (opamFetch env manifestFor).2 =
        Except.error (FetchError.securityError msg)) ∧
      (∀ format, FetchStep.unpackTarball format ∉ (opamFetch env manifestFor).1) ∧
      (opamFetch env manifestFor).1.countP
          (fun step => match step with
            | FetchStep.download _ => true
            | _ => false) = 1 := by
  simp only [opamFetch, href, hman, hurl, hsum]
  simp [writeValidatedStream, hmismatch, List.countP_cons]

/-- C8, witness: the mismatch theorem at a concrete environment whose hasher
never returns the expected checksum. -/
theorem c8_checksum_mismatch_witness :
    parseReference mismatchFetchEnv.reference =
        Except.ok
          { fullName := "foo", name := "foo", scope := none, version := "1.0.0",
            uid := "cafebabe" } ∧
      mismatchManifest.url = some "https://source.example/foo-1.0.0.tgz" ∧
      mismatchManifest.checksum = some "ffffffffffffffffffffffffffffffff" ∧
      mismatchFetchEnv.md5
          (mismatchFetchEnv.download "https://source.example/foo-1.0.0.tgz") ≠
        "ffffffffffffffffffffffffffffffff" ∧
      (∃ msg, (opamFetch mismatchFetchEnv (fun _ _ => some mismatchManifest)).2 =
          Except.error (FetchError.securityError msg)) ∧
      (∀ format,
        FetchStep.unpackTarball format ∉
          (opamFetch mismatchFetchEnv (fun _ _ => some mismatchManifest)).1) ∧
      (opamFetch mismatchFetchEnv (fun _ _ => some mismatchManifest)).1.countP
          (fun step => match step with
            | FetchStep.download _ => true
            | _ => false) = 1 := by
  refine ⟨rfl, rfl, rfl, by decide, ?_⟩
  exact c8_checksum_mismatch_aborts mismatchFetchEnv (fun _ _ => some mismatchManifest)
    { fullName := "foo", name := "foo", scope := none, version := "1.0.0",
      uid := "cafebabe" }
    mismatchManifest "https://source.example/foo-1.0.0.tgz"
    "ffffffffffffffffffffffffffffffff" rfl rfl rfl rfl (by decide)

/-! ## C10: what the returned hash actually digests -/

/-- C10: when the manifest declares a download URL but no checksum, the
downloaded bytes are never fed into the MD5 hasher and the hash returned by
the fetch is the digest of zero bytes; when the manifest declares no
download URL at all, the returned hash is the fetcher's preset hash or the
empty string, and no digest (and no download) ever happens. -/
theorem c10_hash_without_checksum :
    (∀ (env : FetchEnv) (manifestFor : String → String → Option FetchManifest)
        (resolution : OpamPackageReference) (manifest : FetchManifest) (url : String),
      parseReference env.reference = Except.ok resolution →
      manifestFor resolution.name resolution.version = some manifest →
      manifest.url = some url →
      manifest.checksum = none →
      (opamFetch env manifestFor).2 = Except.ok (env.md5 []) ∧
        ∀ bytes, FetchStep.digestBytes bytes ∉ (opamFetch env manifestFor).1) ∧
      ∀ (env : FetchEnv) (manifestFor : String → String → Option FetchManifest)
          (resolution : OpamPackageReference) (manifest : FetchManifest),
        parseReference env.reference = Except.ok resolution →
        manifestFor resolution.name resolution.version = some manifest →
        manifest.url = none →
        (opamFetch env manifestFor).2 = Except.ok (strOr env.presetHash "") ∧
          (∀ url, FetchStep.download url ∉ (opamFetch env manifestFor).1) ∧
          ∀ bytes, FetchStep.digestBytes bytes ∉ (opamFetch env manifestFor).1 := by
  constructor
  · intro env manifestFor resolution manifest url href hman hurl hsum
    simp only [opamFetch, href, hman, hurl, hsum]
    simp [writeValidatedStream]
  · intro env manifestFor resolution manifest href hman hurl
    simp only [opamFetch, href, hman, hurl]
    simp

/-- C10, witness: both branches at concrete manifests — a URL with no
checksum (the returned hash digests zero bytes) and no URL at all (the
returned hash is the empty string since no preset hash is set). -/
theorem c10_hash_witness :
    ((opamFetch mismatchFetchEnv (fun _ _ => some noChecksumManifest)).2 =
        Except.ok (mismatchFetchEnv.md5 []) ∧
      ∀ bytes,
        FetchStep.digestBytes bytes ∉
          (opamFetch mismatchFetchEnv (fun _ _ => some noChecksumManifest)).1) ∧
      (opamFetch mismatchFetchEnv (fun _ _ => some noUrlManifest)).2 =
          Except.ok (strOr mismatchFetchEnv.presetHash "") ∧
        (∀ url,
          FetchStep.download url ∉
            (opamFetch mismatchFetchEnv (fun _ _ => some noUrlManifest)).1) ∧
        ∀ bytes,
          FetchStep.digestBytes bytes ∉
            (opamFetch mismatchFetchEnv (fun _ _ => some noUrlManifest)).1 :=
  ⟨c10_hash_without_checksum.1 mismatchFetchEnv (fun _ _ => some noChecksumManifest)
      { fullName := "foo", name := "foo", scope := none, version := "1.0.0",
        uid := "cafebabe" }
      noChecksumManifest "https://source.example/foo-1.0.0.tgz" rfl rfl rfl rfl,
    c10_hash_without_checksum.2 mismatchFetchEnv (fun _ _ => some noUrlManifest)
      { fullName := "foo", name := "foo", scope := none, version := "1.0.0",
        uid := "cafebabe" }
      noUrlManifest rfl rfl rfl⟩

end EsyInstall
